import Mathlib

/-!
Verification of the `proxyWithPersist` persistence-synchronization engine
(`src/proxyWithPersist.tsx`, canonical revision embedded in `src/App.tsx`).

The engine keeps a live state tree consistent with named records in a
key/value storage backend.  JavaScript objects are embedded as association
lists over `String` keys (JS object keys are unique and insertion-ordered,
which an association list with unique keys models exactly).  JSON values are
embedded as the inductive `Val`; `JSON.stringify`/`JSON.parse` — an external
library pair that is mutually inverse on JSON-safe values — are embedded as
the injective constructor `StoredString.json` and its inverse.
-/

namespace ValtioPersist

/-- Look up a key in an association list (JS property read: first, and with
unique keys the only, binding wins). -/
def getField {α : Type} : List (String × α) → String → Option α
  | [], _ => none
  | (k', v) :: rest, k => if k' = k then some v else getField rest k

/-- Set a key in an association list (JS property write: overwrite in place
if present, append otherwise). -/
def setField {α : Type} : List (String × α) → String → α → List (String × α)
  | [], k, v => [(k, v)]
  | (k', v') :: rest, k, v =>
      if k' = k then (k', v) :: rest else (k', v') :: setField rest k v

/-- Remove a key from an association list (JS `delete obj[k]`). -/
def eraseField {α : Type} : List (String × α) → String → List (String × α)
  | [], _ => []
  | (k', v') :: rest, k => if k' = k then rest else (k', v') :: eraseField rest k

/-- `Object.assign(target, source)`: fold the source fields into the target,
left to right, each overwriting any previous binding. -/
def assignFields {α : Type} (target : List (String × α))
    (source : List (String × α)) : List (String × α) :=
  source.foldl (fun acc e => setField acc e.1 e.2) target

/-- JSON-compatible values (the payload domain of the engine). -/
inductive Val where
  | vnull : Val
  | vbool : Bool → Val
  | vint : Int → Val
  | vstr : String → Val
  | vobj : List (String × Val) → Val

/-- Serialized payloads as they sit in the storage backend.  `json v` stands
for the JSON string encoding of `v`; the encoding is injective by
construction, matching `JSON.stringify` on JSON-safe values. -/
inductive StoredString where
  | json : Val → StoredString

/-- Embedding of `JSON.stringify`. -/
def jsonStringify (v : Val) : StoredString := .json v

/-- Embedding of `JSON.parse` (inverse of `jsonStringify`). -/
def jsonParse : StoredString → Val
  | .json v => v

/-- Own enumerable properties of a JS value, as consumed by
`Object.assign(target, value)`: objects contribute their fields, strings
their indexed characters, and primitives nothing. -/
def valFields : Val → List (String × Val)
  | .vobj fs => fs
  | .vstr s => (s.data.enum).map (fun p => (toString p.1, Val.vstr (String.mk [p.2])))
  | _ => []

/-- JS `s.length` (code points; identical to UTF-16 length on the key
alphabet the engine produces). -/
def strLen (s : String) : Nat := s.data.length

/-- JS `s.substring(n)` / Lean drop of the first `n` characters. -/
def strDrop (s : String) (n : Nat) : String := String.mk (s.data.drop n)

/-- JS `s.startsWith(p)`. -/
def strStartsWith (s p : String) : Bool := p.data.isPrefixOf s.data

/-- Split a character list at every occurrence of `sep` (semantics of JS
`String.prototype.split` with a single-character separator). -/
def splitChar (sep : Char) : List Char → List (List Char)
  | [] => [[]]
  | c :: rest =>
      let r := splitChar sep rest
      if c = sep then [] :: r
      else
        match r with
        | g :: gs => (c :: g) :: gs
        | [] => [[c]]

/-- JS `s.split(sep)` for a single-character separator. -/
def splitStr (sep : Char) (s : String) : List String :=
  (splitChar sep s.data).map String.mk

/-- Join character lists with `sep` between groups (inverse direction of
`splitChar`). -/
def joinChar (sep : Char) : List (List Char) → List Char
  | [] => []
  | [g] => g
  | g :: gs => g ++ sep :: joinChar sep gs

/-- JS `parts.join(".")` on a list of strings. -/
def joinDot (parts : List String) : String :=
  String.mk (joinChar '.' (parts.map String.data))

/-- Lodash `toPath` restricted to plain dot-separated paths (the only shape
of path this code base produces: no brackets or quotes). `toPath("") = []`,
otherwise split on `"."`. -/
def toPath (s : String) : List String :=
  if s = "" then [] else splitStr '.' s

/-- Storage backend contents: one record per storage key (the
`ProxyPersistStorageEngine` state). -/
abbrev Store := List (String × StoredString)

/-- `getItem`: `none` is the engine-level absent sentinel (JS `null`). -/
def Store.read (st : Store) (k : String) : Option StoredString := getField st k

/-- `setItem`. -/
def Store.write (st : Store) (k : String) (v : StoredString) : Store := setField st k v

/-- `removeItem`. -/
def Store.remove (st : Store) (k : String) : Store := eraseField st k

/-- `getAllKeys` (for `window.localStorage`: `Object.keys(window.localStorage)`). -/
def Store.allKeys (st : Store) : List String := st.map Prod.fst

/-- The pending write set `pendingWrites : Record<string, any>`: storage key
to un-stringified value.  The JS value `null` (here `Val.vnull`) doubles as
the delete tombstone — `bulkWrite` tests `value === null`. -/
abbrev Pending := List (String × Val)

/-- One backend call performed by a flush. -/
inductive BackendCall where
  | setItem : String → StoredString → BackendCall
  | removeItem : String → BackendCall

/-- The backend call a pending entry turns into: `removeItem` for the `null`
tombstone, otherwise `setItem` of the stringified value. -/
def callOf : String × Val → BackendCall
  | (k, .vnull) => .removeItem k
  | (k, v) => .setItem k (jsonStringify v)

/-- Effect of a backend call on the storage contents. -/
def applyCall (st : Store) : BackendCall → Store
  | .setItem k s => st.write k s
  | .removeItem k => st.remove k

/-- Events of one `bulkWrite` run: per pending entry, first the deletion of
the entry from `pendingWrites`, then the backend call. -/
inductive FlushEv where
  | unqueue : String → FlushEv
  | call : BackendCall → FlushEv

/-- Event trace of `bulkWrite` over the entries captured by
`Object.entries(pendingWrites)` at invocation time: for each `(filePath,
value)` the entry is deleted from `pendingWrites` and then the write runs
(`onBeforeWrite` defaulting to immediate invocation). -/
def flushTrace (entries : Pending) : List FlushEv :=
  entries.flatMap (fun e => [FlushEv.unqueue e.1, FlushEv.call (callOf e)])

/-- Combined machine state advanced by one flush event. -/
def stepFlush : Pending × Store × List BackendCall → FlushEv → Pending × Store × List BackendCall
  | (p, st, cs), .unqueue k => (eraseField p k, st, cs)
  | (p, st, cs), .call c => (p, applyCall st c, cs ++ [c])

/-- `bulkWrite()`: drain the current pending set; returns the remaining
pending set, the updated storage, and the backend calls performed. -/
def bulkWrite (pending : Pending) (store : Store) : Pending × Store × List BackendCall :=
  (flushTrace pending).foldl stepFlush (pending, store, [])

/-- Effect of a flush event on the pending set alone (backend calls leave it
untouched). -/
def pendingStep (p : Pending) : FlushEv → Pending
  | .unqueue k => eraseField p k
  | .call _ => p

/-- Pending set reached after a list of flush events. -/
def runPending (p : Pending) (evs : List FlushEv) : Pending :=
  evs.foldl pendingStep p

/-- JS `typeof value === 'object'`: true for objects and for `null`. -/
def typeofObject : Val → Bool
  | .vobj _ => true
  | .vnull => true
  | _ => false

/-- valtio `snapshot` as invoked on a staged value: a proxy-backed object
yields its immutable content; passing `null` throws a TypeError (`snapshot`
reads proxy-internal state off its argument). -/
def snapshotOrThrow : Val → Except String Val
  | .vnull => .error "TypeError: cannot snapshot null"
  | v => .ok v

/-- `persistPath` for a `SingleFile` path: stage
`typeof value === 'object' ? snapshot(value) : value` under the path's
storage key.  `typeof null === 'object'` in JS, so a `null` value is routed
into `snapshot`, which throws — in the error case nothing is staged and
`onBeforeBulkWrite` is never reached. -/
def persistPath (filePath : String) (value : Val) (pending : Pending) :
    Except String Pending :=
  (if typeofObject value then snapshotOrThrow value else .ok value).map
    (fun staged => setField pending filePath staged)

/-- One valtio mutation operation as seen by `subscribe`: `op[1]` is the
property path of the mutation; only its first segment is inspected. -/
structure Op where
  path : List String

/-- `ops.every(op => op[1][0] === '_persist')` — note `[].every` is `true`. -/
def opsAllPersist (ops : List Op) : Bool :=
  ops.all (fun op => op.path.headD "" == "_persist")

/-- The live proxy object: its own properties, the reserved `_persist`
record included as an ordinary field. -/
abbrev ProxyState := List (String × Val)

/-- Root `SingleFile` subscription callback: ignore a batch touching only
`_persist`, otherwise stage the full tree snapshot (including `_persist`)
under the root storage key.  The error arm models an exception escaping the
callback, which stages nothing; it is unreachable here because the staged
value is the proxy object itself, never `null`. -/
def rootSingleSubscribe (filePath : String) (st : ProxyState) (pending : Pending)
    (ops : List Op) : Pending :=
  if opsAllPersist ops then pending
  else
    match persistPath filePath (.vobj st) pending with
    | .ok p => p
    | .error _ => pending

/-- A child snapshot as held for diffing: `ref` is the snapshot object's
reference identity (valtio returns the same snapshot object while a subtree
is unchanged), `val` its JSON content. -/
structure RefVal where
  ref : Nat
  val : Val

/-- Snapshot of a keyed container: child key to child snapshot. -/
abbrev Snap := List (String × RefVal)

/-- Lodash `omit(value, '_persist')`. -/
def omitPersist (s : Snap) : Snap := s.filter (fun e => e.1 ≠ "_persist")

/-- The snapshot `persistLeaf` actually diffs: the container snapshot, with
`_persist` omitted when the observed container is the main object. -/
def effSnap (isMain : Bool) (s : Snap) : Snap := if isMain then omitPersist s else s

/-- A `forEach` staging loop: write `g k` under key `f k` into the pending
set for each `k` of the list, in order. -/
def stageAll (f : String → String) (g : String → Val) (p : Pending) (l : List String) :
    Pending :=
  l.foldl (fun p k => setField p (f k) (g k)) p

/-- Child storage key of a `MultiFile` path: `filePath + "." + key`, with no
dot when the path is the root (`filePath` already ends in `-`). -/
def childKeyOf (filePath : String) (isMain : Bool) (k : String) : String :=
  filePath ++ (if isMain then "" else ".") ++ k

/-- Result of one `persistLeaf` invocation. -/
structure LeafResult where
  pending : Pending
  prev : Snap
  flushRequested : Bool

/-- The `addedKeys` loop of `persistLeaf`: keys of the current snapshot not
present in the previous one, in current key order. -/
def diffAdded (value prevValue : Snap) : List String :=
  (value.map Prod.fst).filter (fun k => ¬ (prevValue.map Prod.fst).contains k)

/-- The `removedKeys` loop of `persistLeaf`: keys of the previous snapshot
not present in the current one, in previous key order. -/
def diffRemoved (value prevValue : Snap) : List String :=
  (prevValue.map Prod.fst).filter (fun k => ¬ (value.map Prod.fst).contains k)

/-- The `updatedKeys` loop of `persistLeaf`: keys present in both snapshots
(`possiblyUpdatedKeys`, i.e. the current keys minus added and removed)
whose child snapshots differ by reference identity. -/
def diffUpdated (value prevValue : Snap) : List String :=
  ((value.map Prod.fst).filter (fun k => (prevValue.map Prod.fst).contains k)).filter
    (fun k =>
      match getField prevValue k, getField value k with
      | some pv, some cv => pv.ref ≠ cv.ref
      | _, _ => true)

/-- `persistLeaf` for a `MultiFile` path (canonical revision): diff the
current container snapshot against the previous one by key set and child
reference identity; stage a tombstone per removed key and the child value
per added/updated key; replace the previous snapshot unconditionally; call
`onBeforeBulkWrite` only when the diff is nonempty. -/
def persistLeaf (filePath : String) (isMain : Bool) (value0 : Snap)
    (prevValue : Snap) (pending : Pending) : LeafResult :=
  let value := effSnap isMain value0
  let addedKeys := diffAdded value prevValue
  let removedKeys := diffRemoved value prevValue
  let updatedKeys := diffUpdated value prevValue
  if addedKeys.isEmpty ∧ removedKeys.isEmpty ∧ updatedKeys.isEmpty then
    { pending := pending, prev := value, flushRequested := false }
  else
    let p1 := stageAll (childKeyOf filePath isMain) (fun _ => Val.vnull)
      pending removedKeys
    let p2 := stageAll (childKeyOf filePath isMain)
      (fun k => ((getField value k).map RefVal.val).getD Val.vnull)
      p1 (addedKeys ++ updatedKeys)
    { pending := p2, prev := value, flushRequested := true }

/-- Root `MultiFile` subscription callback: ignore a batch touching only
`_persist`, otherwise run `persistLeaf` on the tree snapshot. -/
def rootMultiSubscribe (filePath : String) (snap : Snap) (prev : Snap)
    (pending : Pending) (ops : List Op) : Pending × Snap :=
  if opsAllPersist ops then (pending, prev)
  else
    let r := persistLeaf filePath true snap prev pending
    (r.pending, r.prev)

/-- Lodash `set` below the top level: write `v` at the segment path inside a
value, creating empty objects for missing or non-object intermediates. -/
def Val.setIn : Val → List String → Val → Val
  | _, [], v => v
  | .vobj fs, k :: rest, v =>
      .vobj (setField fs k (Val.setIn ((getField fs k).getD (.vobj [])) rest v))
  | _, k :: rest, v => .vobj (setField [] k (Val.setIn (.vobj []) rest v))

/-- Lodash `get` below the top level. -/
def Val.getIn : Val → List String → Option Val
  | v, [] => some v
  | .vobj fs, k :: rest => (getField fs k).bind (fun c => c.getIn rest)
  | _, _ :: _ => none

/-- Lodash `set(proxyObject, path, v)` for a nonempty dot path. -/
def ProxyState.setPath (st : ProxyState) (path : String) (v : Val) : ProxyState :=
  match toPath path with
  | [] => st
  | k :: rest => setField st k (Val.setIn ((getField st k).getD (.vobj [])) rest v)

/-- Lodash `get(proxyObject, path)` for a nonempty dot path. -/
def ProxyState.getPath (st : ProxyState) (path : String) : Option Val :=
  match toPath path with
  | [] => none
  | k :: rest => (getField st k).bind (fun c => c.getIn rest)

/-- `PersistStrategy`. -/
inductive PersistStrategy where
  | SingleFile : PersistStrategy
  | MultiFile : PersistStrategy
deriving DecidableEq

/-- The `persistStrategies` input: a bare strategy (applied to the root
path) or a map from path to strategy. -/
inductive Strategies where
  | single : PersistStrategy → Strategies
  | perPath : List (String × PersistStrategy) → Strategies

/-- `IProxyWithPersistInputs`.  `migrate` is the version-key map of
migration callbacks; only its keys are observable since the callbacks take
no arguments (`{[key: number]: () => null}`).  The `onBeforeWrite` and
`onBeforeBulkWrite` hooks are modelled at their defaults (immediate
invocation), with flushes invoked explicitly. -/
structure Inputs where
  name : String
  version : Int
  strategies : Strategies
  migrate : List Int
  initialState : List (String × Val)

/-- `Object.entries(...)` over the normalized strategies map:
a bare strategy becomes the single entry at the root path. -/
def entriesOf : Strategies → List (String × PersistStrategy)
  | .single s => [("", s)]
  | .perPath m => m

/-- The startup guard for fetching `getAllKeys`: the strategies input is the
bare `MultiFile` strategy or the map contains a `MultiFile` value. -/
def usesMultiFile : Strategies → Bool
  | .single s => s = .MultiFile
  | .perPath m => m.any (fun e => e.2 = .MultiFile)

/-- `filePath`: the storage key of a configured path. -/
def storageKeyOf (name path : String) : String := name ++ "-" ++ path

/-- One reconciliation write into the live tree produced by a path load. -/
inductive LoadUpdate where
  | assignRoot : List (String × Val) → LoadUpdate
  | setAt : String → Val → LoadUpdate

/-- Outcome of loading one configured path: the tree writes it performs and
whether it completed without throwing. -/
structure PathOutcome where
  updates : List LoadUpdate
  ok : Bool

/-- `SingleFile` load: read the path's storage key; absent means the initial
state stands; otherwise parse, and shallow-merge into the tree at the root
or replace the value at a non-root path. -/
def loadSingleFile (name path : String) (store : Store) : PathOutcome :=
  let filePath := storageKeyOf name path
  match store.read filePath with
  | none => { updates := [], ok := true }
  | some s =>
      let persistedValue := jsonParse s
      if path = "" then { updates := [.assignRoot (valFields persistedValue)], ok := true }
      else { updates := [.setAt path persistedValue], ok := true }

/-- The two `MultiFile` enumeration filters: the key starts with
`name + "-"`, and (root path) its first `-`-segment equals `name`, or
(non-root) its dot path minus the last segment rejoined equals the path's
storage key. -/
def matchesMulti (name path : String) (k : String) : Bool :=
  strStartsWith k (name ++ "-") &&
    (if path = "" then (splitStr '-' k).headD "" == name
     else joinDot ((toPath k).dropLast) == storageKeyOf name path)

/-- Load of one enumerated child key: an absent read is the
`MissingFileError` invariant violation (enumeration promised existence);
otherwise parse and set at the key minus the `name + "-"` prefix. -/
def loadMultiKey (name : String) (store : Store) (k : String) : Except String LoadUpdate :=
  match store.read k with
  | none => .error ("Could not find file for leafPath found of " ++ k)
  | some s => .ok (.setAt (strDrop k (strLen name + 1)) (jsonParse s))

/-- `MultiFile` load: each matched enumerated key is read and reconciled
independently (the source maps the keys under `Promise.all`, so one key's
failure does not undo another's write); the path load as a whole fails if
any matched key fails. -/
def loadMultiFile (name path : String) (allKeys : List String) (store : Store) :
    PathOutcome :=
  let matched := allKeys.filter (matchesMulti name path)
  let results := matched.map (loadMultiKey name store)
  { updates := results.filterMap Except.toOption
    ok := results.all Except.isOk }

/-- Dispatch of `loadPath` on the configured strategy (the unknown-strategy
throw is unreachable over the total strategy enum). -/
def loadPathOutcome (name : String) (allKeys : List String) (store : Store) :
    String × PersistStrategy → PathOutcome
  | (path, .SingleFile) => loadSingleFile name path store
  | (path, .MultiFile) => loadMultiFile name path allKeys store

/-- The `_persist` record as initialized at construction. -/
def persistLoading (version : Int) : Val :=
  .vobj [("version", .vint version), ("status", .vstr "loading"),
    ("loading", .vbool true), ("loaded", .vbool false), ("error", .vnull)]

/-- The synchronous part of `proxyWithPersist`: the returned proxy object is
the spread of `initialState` with the `_persist` status record added.  No
storage call result is consumed and no exception can reach the caller
before this value is returned (the startup routine is an async IIFE whose
failures become rejected promises). -/
def construct (inputs : Inputs) : ProxyState :=
  setField inputs.initialState "_persist" (persistLoading inputs.version)

/-- Apply one reconciliation write to the live tree. -/
def applyUpdate (st : ProxyState) : LoadUpdate → ProxyState
  | .assignRoot fs => assignFields st fs
  | .setAt p v => st.setPath p v

/-- The final status assignment
`Object.assign(proxyObject._persist, {loaded: true, loading: false, status: 'loaded'})`. -/
def markLoaded (st : ProxyState) : ProxyState :=
  match getField st "_persist" with
  | some (.vobj pfs) =>
      setField st "_persist" (.vobj (assignFields pfs
        [("loaded", .vbool true), ("loading", .vbool false), ("status", .vstr "loaded")]))
  | _ => st

/-- The key enumeration fetched by the startup routine. -/
def startupAllKeys (inputs : Inputs) (store : Store) : List String :=
  if usesMultiFile inputs.strategies then store.allKeys else []

/-- Per-path outcomes of the startup load phase, in configuration order (a
linearization of the concurrent `Promise.all`; the claims checked here do
not depend on inter-path interleaving). -/
def startupOutcomes (inputs : Inputs) (store : Store) : List PathOutcome :=
  (entriesOf inputs.strategies).map
    (loadPathOutcome inputs.name (startupAllKeys inputs store) store)

/-- All reconciliation writes of the load phase. -/
def startupUpdates (inputs : Inputs) (store : Store) : List LoadUpdate :=
  (startupOutcomes inputs store).flatMap PathOutcome.updates

/-- Whether every path load completed (`await Promise.all` resolved, so the
final status assignment runs). -/
def startupOk (inputs : Inputs) (store : Store) : Bool :=
  (startupOutcomes inputs store).all PathOutcome.ok

/-- States passed through while applying a list of tree writes (first
element is the starting state). -/
def statesFrom (st : ProxyState) : List LoadUpdate → List ProxyState
  | [] => [st]
  | u :: rest => st :: statesFrom (applyUpdate st u) rest

/-- The sequence of states the proxy object passes through from
construction to the end of the startup routine. -/
def startupStates (inputs : Inputs) (store : Store) : List ProxyState :=
  let st0 := construct inputs
  let updates := startupUpdates inputs store
  statesFrom st0 updates ++
    (if startupOk inputs store then [markLoaded (updates.foldl applyUpdate st0)] else [])

/-- The final state of the startup routine. -/
def startupState (inputs : Inputs) (store : Store) : ProxyState :=
  let st0 := construct inputs
  let updates := startupUpdates inputs store
  if startupOk inputs store then markLoaded (updates.foldl applyUpdate st0)
  else updates.foldl applyUpdate st0

/-- The `status` string of the `_persist` record of a state, when present. -/
def statusStrOf (st : ProxyState) : Option String :=
  match getField st "_persist" with
  | some (.vobj pfs) =>
      match getField pfs "status" with
      | some (.vstr s) => some s
      | _ => none
  | _ => none

/-- The `loading` and `loaded` booleans of the `_persist` record. -/
def loadingFlagsOf (st : ProxyState) : Option (Bool × Bool) :=
  match getField st "_persist" with
  | some (.vobj pfs) =>
      match getField pfs "loading", getField pfs "loaded" with
      | some (.vbool l), some (.vbool d) => some (l, d)
      | _, _ => none
  | _ => none

/-- Observable startup events (storage traffic and migration callback
invocations).  The source startup routine never reads `inputs.migrate`
— the `migrate` input is declared in `IProxyWithPersistInputs` and then
unused — so no `runMigration` event is ever emitted. -/
inductive Event where
  | enumerateKeys : List String → Event
  | readItem : String → Option StoredString → Event
  | runMigration : Int → Event

/-- Storage reads performed by one path load. -/
def pathEvents (name : String) (allKeys : List String) (store : Store) :
    String × PersistStrategy → List Event
  | (path, .SingleFile) =>
      [.readItem (storageKeyOf name path) (store.read (storageKeyOf name path))]
  | (path, .MultiFile) =>
      (allKeys.filter (matchesMulti name path)).map
        (fun k => .readItem k (store.read k))

/-- Event trace of the startup routine. -/
def startupEvents (inputs : Inputs) (store : Store) : List Event :=
  (if usesMultiFile inputs.strategies then [.enumerateKeys store.allKeys] else []) ++
    (entriesOf inputs.strategies).flatMap
      (pathEvents inputs.name (startupAllKeys inputs store) store)

/-- Migration callback invocations recorded in an event trace. -/
def migrationRunsOf (evs : List Event) : List Int :=
  evs.filterMap (fun e => match e with | .runMigration k => some k | _ => none)

/-- Modelled from the spec: the MigrationRunner contract, which is absent
from the source.  Given the persisted version and the target version, the
migration keys to invoke are those in the half-open interval
`(persistedVersion, targetVersion]`, in ascending order. -/
def specMigrationPlan (persistedVersion targetVersion : Int) (keys : List Int) : List Int :=
  List.insertionSort (· ≤ ·)
    (keys.filter (fun k => persistedVersion < k ∧ k ≤ targetVersion))

/-- Whether one load-phase tree write touches the reserved `_persist` field
(root shallow-merge carrying a `_persist` key, or a path whose first segment
is `_persist`).  Well-formed configurations and self-produced storage
contents never do: the engine's own `MultiFile` staging omits `_persist`
children and configured paths are user state paths. -/
def touchesPersist : LoadUpdate → Bool
  | .assignRoot fs => fs.any (fun e => e.1 == "_persist")
  | .setAt p _ => (toPath p).headD "" == "_persist"

/-- A `_persist` record of the shapes the engine itself can have persisted:
an object whose `status` field is `"loading"` or `"loaded"` (the engine's
root `SingleFile` staging snapshots the live record, whose status is one of
those two — the error status is never set by the code). -/
def selfPersistRecord : Val → Bool
  | .vobj fs =>
      match getField fs "status" with
      | some (.vstr s) => s == "loading" || s == "loaded"
      | _ => false
  | _ => false

/-- A load-phase write that is benign for the status model: it leaves the
reserved `_persist` record alone, or it is a root shallow-merge whose every
`_persist` binding carries a record the engine itself can have persisted.
Root `SingleFile` engines reloading their own store produce exactly such
merges (their staged payload embeds the live `_persist` record). -/
def benignUpdate : LoadUpdate → Bool
  | .assignRoot fs => fs.all (fun e => !(e.1 == "_persist") || selfPersistRecord e.2)
  | .setAt p _ => !((toPath p).headD "" == "_persist")

/-- Whether the `_persist` field of a state currently holds a record of the
self-persistable shape. -/
def persistStateShape (st : ProxyState) : Bool :=
  match getField st "_persist" with
  | some v => selfPersistRecord v
  | none => false

/-- The `_persist.status` values the proxy object passes through from
construction to the end of startup. -/
def statusTrace (inputs : Inputs) (store : Store) : List (Option String) :=
  (startupStates inputs store).map statusStrOf

/-- Number of adjacent `"loading"`-to-`"loaded"` transitions in a status
history. -/
def countLoadingToLoaded : List (Option String) → Nat
  | a :: b :: rest =>
      (if a = some "loading" ∧ b = some "loaded" then 1 else 0)
        + countLoadingToLoaded (b :: rest)
  | _ => 0

theorem getField_setField_self {α : Type} (l : List (String × α)) (k : String) (v : α) :
    getField (setField l k v) k = some v := by
  induction l with
  | nil => simp [setField, getField]
  | cons e rest ih =>
      by_cases h : e.1 = k
      · simp [setField, h, getField]
      · simp [setField, h, getField, ih]

theorem getField_setField_ne {α : Type} (l : List (String × α)) (k k' : String) (v : α)
    (h : k' ≠ k) : getField (setField l k' v) k = getField l k := by
  induction l with
  | nil => simp [setField, getField, h]
  | cons e rest ih =>
      by_cases he : e.1 = k'
      · simp [setField, he, getField, h]
      · by_cases hek : e.1 = k
        · simp [setField, he, getField, hek, Ne.symm h]
        · simp [setField, he, getField, hek, ih]

theorem getField_eraseField_ne {α : Type} (l : List (String × α)) (k k' : String)
    (h : k' ≠ k) : getField (eraseField l k') k = getField l k := by
  induction l with
  | nil => simp [eraseField]
  | cons e rest ih =>
      by_cases he : e.1 = k'
      · have : e.1 ≠ k := by rw [he]; exact h
        simp [eraseField, he, getField, this, h]
      · by_cases hek : e.1 = k
        · simp [eraseField, he, getField, hek, Ne.symm h]
        · simp [eraseField, he, getField, hek, ih]

theorem getField_assignFields_notMem {α : Type} (target source : List (String × α))
    (k : String) (h : ∀ e ∈ source, e.1 ≠ k) :
    getField (assignFields target source) k = getField target k := by
  induction source generalizing target with
  | nil => rfl
  | cons e rest ih =>
      have he : e.1 ≠ k := h e (by simp)
      have hrest : ∀ e' ∈ rest, e'.1 ≠ k := fun e' he' => h e' (by simp [he'])
      show getField (assignFields (setField target e.1 e.2) rest) k = _
      rw [ih _ hrest, getField_setField_ne _ _ _ _ he]

theorem getField_assignFields_mem {α : Type} (target source : List (String × α))
    (k : String) (v : α) (hnd : (source.map Prod.fst).Nodup)
    (h : getField source k = some v) :
    getField (assignFields target source) k = some v := by
  induction source generalizing target with
  | nil => simp [getField] at h
  | cons e rest ih =>
      simp only [List.map_cons, List.nodup_cons] at hnd
      by_cases he : e.1 = k
      · have hv : e.2 = v := by
          simp [getField, he] at h; exact h
        have hrest : ∀ e' ∈ rest, e'.1 ≠ k := by
          intro e' he'
          intro hk
          have hmem : e'.1 ∈ List.map Prod.fst rest := List.mem_map_of_mem _ he'
          rw [hk, ← he] at hmem
          exact hnd.1 hmem
        show getField (assignFields (setField target e.1 e.2) rest) k = _
        rw [getField_assignFields_notMem _ _ _ hrest, hv, ← he,
          getField_setField_self]
      · have h' : getField rest k = some v := by simpa [getField, he] using h
        show getField (assignFields (setField target e.1 e.2) rest) k = _
        exact ih _ hnd.2 h'

theorem strAppend_left_cancel (s a b : String) (h : s ++ a = s ++ b) : a = b := by
  have hd : (s ++ a).data = (s ++ b).data := congrArg String.data h
  rw [String.data_append, String.data_append] at hd
  exact String.ext (List.append_cancel_left hd)

theorem strLen_append (a b : String) : strLen (a ++ b) = strLen a + strLen b := by
  simp [strLen, String.data_append]

theorem strStartsWith_append_drop (a p : String) (h : strStartsWith a p = true) :
    p ++ strDrop a (strLen p) = a := by
  have hp : p.data <+: a.data := List.isPrefixOf_iff_prefix.mp h
  obtain ⟨t, ht⟩ := hp
  apply String.ext
  rw [String.data_append]
  show p.data ++ (a.data.drop p.data.length) = a.data
  rw [← ht, List.drop_left]

theorem strDrop_inj_of_startsWith (a b p : String)
    (ha : strStartsWith a p = true) (hb : strStartsWith b p = true)
    (h : strDrop a (strLen p) = strDrop b (strLen p)) : a = b := by
  rw [← strStartsWith_append_drop a p ha, ← strStartsWith_append_drop b p hb, h]

theorem getField_some_mem_keys {α : Type} (l : List (String × α)) (k : String) (v : α)
    (h : getField l k = some v) : k ∈ l.map Prod.fst := by
  induction l with
  | nil => simp [getField] at h
  | cons e rest ih =>
      by_cases he : e.1 = k
      · simp [he]
      · simp [getField, he] at h
        simp [ih h]

theorem mem_keys_getField_isSome {α : Type} (l : List (String × α)) (k : String)
    (h : k ∈ l.map Prod.fst) : (getField l k).isSome := by
  induction l with
  | nil => simp at h
  | cons e rest ih =>
      by_cases he : e.1 = k
      · simp [getField, he]
      · rw [List.map_cons, List.mem_cons] at h
        rcases h with h1 | h2
        · exact absurd h1.symm he
        · simpa [getField, he] using ih h2

theorem getField_stageAll_notMem (f : String → String) (g : String → Val)
    (p : Pending) (l : List String) (s : String) (h : ∀ k ∈ l, f k ≠ s) :
    getField (stageAll f g p l) s = getField p s := by
  induction l generalizing p with
  | nil => rfl
  | cons a rest ih =>
      show getField (stageAll f g (setField p (f a) (g a)) rest) s = _
      rw [ih _ (fun k hk => h k (by simp [hk])),
        getField_setField_ne _ _ _ _ (h a (by simp))]

theorem getField_stageAll_mem (f : String → String) (g : String → Val)
    (p : Pending) (l : List String) (k : String) (hnd : l.Nodup)
    (hinj : ∀ a b, f a = f b → a = b) (hk : k ∈ l) :
    getField (stageAll f g p l) (f k) = some (g k) := by
  induction l generalizing p with
  | nil => simp at hk
  | cons a rest ih =>
      rw [List.nodup_cons] at hnd
      rcases List.mem_cons.mp hk with hka | hkr
      · subst hka
        show getField (stageAll f g (setField p (f k) (g k)) rest) (f k) = _
        rw [getField_stageAll_notMem _ _ _ _ _
          (fun k' hk' heq => hnd.1 (hinj k' k heq ▸ hk')),
          getField_setField_self]
      · exact ih _ hnd.2 hkr

theorem childKeyOf_inj (filePath : String) (isMain : Bool) (a b : String)
    (h : childKeyOf filePath isMain a = childKeyOf filePath isMain b) : a = b :=
  strAppend_left_cancel _ _ _ h

theorem mem_diffAdded (value prevValue : Snap) (k : String) :
    k ∈ diffAdded value prevValue ↔
      k ∈ value.map Prod.fst ∧ k ∉ prevValue.map Prod.fst := by
  simp [diffAdded]

theorem mem_diffRemoved (value prevValue : Snap) (k : String) :
    k ∈ diffRemoved value prevValue ↔
      k ∈ prevValue.map Prod.fst ∧ k ∉ value.map Prod.fst := by
  simp [diffRemoved]

theorem mem_diffUpdated_intro (value prevValue : Snap) (k : String) (pv cv : RefVal)
    (hpv : getField prevValue k = some pv) (hcv : getField value k = some cv)
    (hne : pv.ref ≠ cv.ref) : k ∈ diffUpdated value prevValue := by
  rw [diffUpdated, List.mem_filter, List.mem_filter]
  refine ⟨⟨getField_some_mem_keys _ _ _ hcv, by simp [getField_some_mem_keys _ _ _ hpv]⟩, ?_⟩
  rw [hpv, hcv]
  simpa using hne

theorem not_mem_diffUpdated (value prevValue : Snap) (k : String) (pv cv : RefVal)
    (hpv : getField prevValue k = some pv) (hcv : getField value k = some cv)
    (heq : pv.ref = cv.ref) : k ∉ diffUpdated value prevValue := by
  rw [diffUpdated, List.mem_filter]
  rintro ⟨-, hpred⟩
  rw [hpv, hcv] at hpred
  simp [heq] at hpred

theorem mem_diffUpdated_keys (value prevValue : Snap) (k : String)
    (h : k ∈ diffUpdated value prevValue) :
    k ∈ value.map Prod.fst ∧ k ∈ prevValue.map Prod.fst := by
  rw [diffUpdated, List.mem_filter, List.mem_filter] at h
  refine ⟨h.1.1, ?_⟩
  have := h.1.2
  simpa using this

theorem diffAdded_nodup (value prevValue : Snap) (hv : (value.map Prod.fst).Nodup) :
    (diffAdded value prevValue).Nodup := hv.filter _

theorem diffRemoved_nodup (value prevValue : Snap) (hp : (prevValue.map Prod.fst).Nodup) :
    (diffRemoved value prevValue).Nodup := hp.filter _

theorem diffUpdated_nodup (value prevValue : Snap) (hv : (value.map Prod.fst).Nodup) :
    (diffUpdated value prevValue).Nodup := (hv.filter _).filter _

theorem diffAdded_append_diffUpdated_nodup (value prevValue : Snap)
    (hv : (value.map Prod.fst).Nodup) :
    (diffAdded value prevValue ++ diffUpdated value prevValue).Nodup := by
  refine List.Nodup.append (diffAdded_nodup _ _ hv) (diffUpdated_nodup _ _ hv) ?_
  intro k hka hku
  exact ((mem_diffAdded _ _ _).mp hka).2 (mem_diffUpdated_keys _ _ _ hku).2

theorem persistLeaf_stages_removed (filePath : String) (isMain : Bool)
    (value0 prevValue : Snap) (pending : Pending)
    (hp : (prevValue.map Prod.fst).Nodup)
    (k : String) (hkp : k ∈ prevValue.map Prod.fst)
    (hkv : k ∉ (effSnap isMain value0).map Prod.fst) :
    getField (persistLeaf filePath isMain value0 prevValue pending).pending
      (childKeyOf filePath isMain k) = some Val.vnull := by
  have hkrem : k ∈ diffRemoved (effSnap isMain value0) prevValue :=
    (mem_diffRemoved _ _ _).mpr ⟨hkp, hkv⟩
  have hguard : ¬ ((diffAdded (effSnap isMain value0) prevValue).isEmpty
      ∧ (diffRemoved (effSnap isMain value0) prevValue).isEmpty
      ∧ (diffUpdated (effSnap isMain value0) prevValue).isEmpty) := by
    rintro ⟨-, h2, -⟩
    rw [List.isEmpty_iff] at h2
    rw [h2] at hkrem
    simp at hkrem
  show getField (if _ then _ else _ : LeafResult).pending _ = _
  rw [if_neg hguard]
  show getField (stageAll _ _ _ _) _ = _
  rw [getField_stageAll_notMem _ _ _ _ _ ?notmem,
    getField_stageAll_mem _ _ _ _ _ (diffRemoved_nodup _ _ hp)
      (childKeyOf_inj filePath isMain) hkrem]
  case notmem =>
    intro k' hk' heq
    have hk'k : k' = k := childKeyOf_inj _ _ _ _ heq
    subst hk'k
    rcases List.mem_append.mp hk' with ha | hu
    · exact hkv ((mem_diffAdded _ _ _).mp ha).1
    · exact hkv (mem_diffUpdated_keys _ _ _ hu).1

theorem persistLeaf_stages_added (filePath : String) (isMain : Bool)
    (value0 prevValue : Snap) (pending : Pending)
    (hv : ((effSnap isMain value0).map Prod.fst).Nodup)
    (k : String) (rv : RefVal) (hkp : k ∉ prevValue.map Prod.fst)
    (hcv : getField (effSnap isMain value0) k = some rv) :
    getField (persistLeaf filePath isMain value0 prevValue pending).pending
      (childKeyOf filePath isMain k) = some rv.val := by
  have hka : k ∈ diffAdded (effSnap isMain value0) prevValue :=
    (mem_diffAdded _ _ _).mpr ⟨getField_some_mem_keys _ _ _ hcv, hkp⟩
  have hguard : ¬ ((diffAdded (effSnap isMain value0) prevValue).isEmpty
      ∧ (diffRemoved (effSnap isMain value0) prevValue).isEmpty
      ∧ (diffUpdated (effSnap isMain value0) prevValue).isEmpty) := by
    rintro ⟨h1, -, -⟩
    rw [List.isEmpty_iff] at h1
    rw [h1] at hka
    simp at hka
  show getField (if _ then _ else _ : LeafResult).pending _ = _
  rw [if_neg hguard]
  show getField (stageAll _ _ _ _) _ = _
  rw [getField_stageAll_mem _ _ _ _ _
    (diffAdded_append_diffUpdated_nodup _ _ hv) (childKeyOf_inj filePath isMain)
    (List.mem_append_left _ hka)]
  simp [hcv]

theorem persistLeaf_stages_updated (filePath : String) (isMain : Bool)
    (value0 prevValue : Snap) (pending : Pending)
    (hv : ((effSnap isMain value0).map Prod.fst).Nodup)
    (k : String) (pv cv : RefVal)
    (hpv : getField prevValue k = some pv)
    (hcv : getField (effSnap isMain value0) k = some cv)
    (hne : pv.ref ≠ cv.ref) :
    getField (persistLeaf filePath isMain value0 prevValue pending).pending
      (childKeyOf filePath isMain k) = some cv.val := by
  have hku : k ∈ diffUpdated (effSnap isMain value0) prevValue :=
    mem_diffUpdated_intro _ _ _ _ _ hpv hcv hne
  have hguard : ¬ ((diffAdded (effSnap isMain value0) prevValue).isEmpty
      ∧ (diffRemoved (effSnap isMain value0) prevValue).isEmpty
      ∧ (diffUpdated (effSnap isMain value0) prevValue).isEmpty) := by
    rintro ⟨-, -, h3⟩
    rw [List.isEmpty_iff] at h3
    rw [h3] at hku
    simp at hku
  show getField (if _ then _ else _ : LeafResult).pending _ = _
  rw [if_neg hguard]
  show getField (stageAll _ _ _ _) _ = _
  rw [getField_stageAll_mem _ _ _ _ _
    (diffAdded_append_diffUpdated_nodup _ _ hv) (childKeyOf_inj filePath isMain)
    (List.mem_append_right _ hku)]
  simp [hcv]

theorem persistLeaf_keeps_refEqual (filePath : String) (isMain : Bool)
    (value0 prevValue : Snap) (pending : Pending)
    (k : String) (pv cv : RefVal)
    (hpv : getField prevValue k = some pv)
    (hcv : getField (effSnap isMain value0) k = some cv)
    (heq : pv.ref = cv.ref) :
    getField (persistLeaf filePath isMain value0 prevValue pending).pending
      (childKeyOf filePath isMain k) =
      getField pending (childKeyOf filePath isMain k) := by
  have hkv : k ∈ (effSnap isMain value0).map Prod.fst :=
    getField_some_mem_keys _ _ _ hcv
  have hkp : k ∈ prevValue.map Prod.fst := getField_some_mem_keys _ _ _ hpv
  have hnota : k ∉ diffAdded (effSnap isMain value0) prevValue := by
    intro h
    exact ((mem_diffAdded _ _ _).mp h).2 hkp
  have hnotr : k ∉ diffRemoved (effSnap isMain value0) prevValue := by
    intro h
    exact ((mem_diffRemoved _ _ _).mp h).2 hkv
  have hnotu : k ∉ diffUpdated (effSnap isMain value0) prevValue :=
    not_mem_diffUpdated _ _ _ _ _ hpv hcv heq
  by_cases hguard : ((diffAdded (effSnap isMain value0) prevValue).isEmpty
      ∧ (diffRemoved (effSnap isMain value0) prevValue).isEmpty
      ∧ (diffUpdated (effSnap isMain value0) prevValue).isEmpty)
  · show getField (if _ then _ else _ : LeafResult).pending _ = _
    rw [if_pos hguard]
  · show getField (if _ then _ else _ : LeafResult).pending _ = _
    rw [if_neg hguard]
    show getField (stageAll _ _ _ _) _ = _
    rw [getField_stageAll_notMem _ _ _ _ _ ?notmem2,
      getField_stageAll_notMem _ _ _ _ _ ?notmem1]
    case notmem1 =>
      intro k' hk' hne'
      exact hnotr (childKeyOf_inj _ _ _ _ hne' ▸ hk')
    case notmem2 =>
      intro k' hk' hne'
      have hk'k : k' = k := childKeyOf_inj _ _ _ _ hne'
      subst hk'k
      rcases List.mem_append.mp hk' with ha | hu
      · exact hnota ha
      · exact hnotu hu

theorem persistLeaf_keeps_untouched (filePath : String) (isMain : Bool)
    (value0 prevValue : Snap) (pending : Pending)
    (k : String) (hkv : k ∉ (effSnap isMain value0).map Prod.fst)
    (hkp : k ∉ prevValue.map Prod.fst) :
    getField (persistLeaf filePath isMain value0 prevValue pending).pending
      (childKeyOf filePath isMain k) =
      getField pending (childKeyOf filePath isMain k) := by
  have hnota : k ∉ diffAdded (effSnap isMain value0) prevValue := by
    intro h
    exact hkv ((mem_diffAdded _ _ _).mp h).1
  have hnotr : k ∉ diffRemoved (effSnap isMain value0) prevValue := by
    intro h
    exact hkp ((mem_diffRemoved _ _ _).mp h).1
  have hnotu : k ∉ diffUpdated (effSnap isMain value0) prevValue := by
    intro h
    exact hkv (mem_diffUpdated_keys _ _ _ h).1
  by_cases hguard : ((diffAdded (effSnap isMain value0) prevValue).isEmpty
      ∧ (diffRemoved (effSnap isMain value0) prevValue).isEmpty
      ∧ (diffUpdated (effSnap isMain value0) prevValue).isEmpty)
  · show getField (if _ then _ else _ : LeafResult).pending _ = _
    rw [if_pos hguard]
  · show getField (if _ then _ else _ : LeafResult).pending _ = _
    rw [if_neg hguard]
    show getField (stageAll _ _ _ _) _ = _
    rw [getField_stageAll_notMem _ _ _ _ _ ?notmem4,
      getField_stageAll_notMem _ _ _ _ _ ?notmem3]
    case notmem3 =>
      intro k' hk' hne'
      exact hnotr (childKeyOf_inj _ _ _ _ hne' ▸ hk')
    case notmem4 =>
      intro k' hk' hne'
      have hk'k : k' = k := childKeyOf_inj _ _ _ _ hne'
      subst hk'k
      rcases List.mem_append.mp hk' with ha | hu
      · exact hnota ha
      · exact hnotu hu

theorem getField_markLoaded_ne (st : ProxyState) (k : String) (h : k ≠ "_persist") :
    getField (markLoaded st) k = getField st k := by
  unfold markLoaded
  cases hm : getField st "_persist" with
  | none => rfl
  | some v =>
      cases v <;> try rfl
      exact getField_setField_ne _ _ _ _ (fun he => h he.symm)

theorem persistLeaf_keeps_nonChild (filePath : String) (isMain : Bool)
    (value0 prevValue : Snap) (pending : Pending)
    (s : String) (hs : ∀ k, s ≠ childKeyOf filePath isMain k) :
    getField (persistLeaf filePath isMain value0 prevValue pending).pending s =
      getField pending s := by
  by_cases hguard : ((diffAdded (effSnap isMain value0) prevValue).isEmpty
      ∧ (diffRemoved (effSnap isMain value0) prevValue).isEmpty
      ∧ (diffUpdated (effSnap isMain value0) prevValue).isEmpty)
  · show getField (if _ then _ else _ : LeafResult).pending _ = _
    rw [if_pos hguard]
  · show getField (if _ then _ else _ : LeafResult).pending _ = _
    rw [if_neg hguard]
    show getField (stageAll _ _ _ _) _ = _
    rw [getField_stageAll_notMem _ _ _ _ _ (fun k _ heq => hs k heq.symm),
      getField_stageAll_notMem _ _ _ _ _ (fun k _ heq => hs k heq.symm)]

/-- C2: for every MultiFile (keyed-children) path, each observed change
stages pending writes computed from the diff of the current snapshot against
the previous snapshot — added keys are those not previously present, removed
keys those no longer present, updated keys those common to both whose child
snapshots differ by reference identity; each removed key stages a tombstone
at its child storage key, each added or updated key stages its value, and no
entry is staged for any unaffected key (neither for an unchanged child nor
for any non-child storage key). -/
theorem multiFile_diff_stages_exactly (filePath : String) (isMain : Bool)
    (value0 prevValue : Snap) (pending : Pending)
    (hv : ((effSnap isMain value0).map Prod.fst).Nodup)
    (hp : (prevValue.map Prod.fst).Nodup) :
    (∀ k, k ∈ prevValue.map Prod.fst → k ∉ (effSnap isMain value0).map Prod.fst →
      getField (persistLeaf filePath isMain value0 prevValue pending).pending
        (childKeyOf filePath isMain k) = some Val.vnull)
    ∧ (∀ k rv, k ∉ prevValue.map Prod.fst →
        getField (effSnap isMain value0) k = some rv →
        getField (persistLeaf filePath isMain value0 prevValue pending).pending
          (childKeyOf filePath isMain k) = some rv.val)
    ∧ (∀ k pv cv, getField prevValue k = some pv →
        getField (effSnap isMain value0) k = some cv → pv.ref ≠ cv.ref →
        getField (persistLeaf filePath isMain value0 prevValue pending).pending
          (childKeyOf filePath isMain k) = some cv.val)
    ∧ (∀ k pv cv, getField prevValue k = some pv →
        getField (effSnap isMain value0) k = some cv → pv.ref = cv.ref →
        getField (persistLeaf filePath isMain value0 prevValue pending).pending
          (childKeyOf filePath isMain k) =
          getField pending (childKeyOf filePath isMain k))
    ∧ (∀ k, k ∉ (effSnap isMain value0).map Prod.fst → k ∉ prevValue.map Prod.fst →
        getField (persistLeaf filePath isMain value0 prevValue pending).pending
          (childKeyOf filePath isMain k) =
          getField pending (childKeyOf filePath isMain k))
    ∧ (∀ s, (∀ k, s ≠ childKeyOf filePath isMain k) →
        getField (persistLeaf filePath isMain value0 prevValue pending).pending s =
          getField pending s) :=
  ⟨fun k hkp hkv => persistLeaf_stages_removed filePath isMain value0 prevValue pending
      hp k hkp hkv,
   fun k rv hkp hcv => persistLeaf_stages_added filePath isMain value0 prevValue pending
      hv k rv hkp hcv,
   fun k pv cv hpv hcv hne => persistLeaf_stages_updated filePath isMain value0 prevValue
      pending hv k pv cv hpv hcv hne,
   fun k pv cv hpv hcv heq => persistLeaf_keeps_refEqual filePath isMain value0 prevValue
      pending k pv cv hpv hcv heq,
   fun k hkv hkp => persistLeaf_keeps_untouched filePath isMain value0 prevValue pending
      k hkv hkp,
   fun s hs => persistLeaf_keeps_nonChild filePath isMain value0 prevValue pending s hs⟩

/-- Witness for C2: the container `photos` starts at `{}`, `p1` is added and
flushed, then in one mutation `p2` is added and `p1` deleted — the previous
snapshot is `{p1}`, the current one `{p2}`, the pending set is empty after
the flush, and the resulting pending set holds exactly the tombstone at
`"app-photos.p1"`, the value entry at `"app-photos.p2"`, and nothing for the
unaffected key `photoFixed`. -/
theorem multiFile_diff_stages_exactly_witness :
    getField (persistLeaf "app-photos" false
        [("p2", ⟨2, Val.vobj [("id", Val.vstr "p2"), ("clicks", Val.vint 0)]⟩)]
        [("p1", ⟨1, Val.vobj [("id", Val.vstr "p1"), ("clicks", Val.vint 3)]⟩)]
        []).pending "app-photos.p1" = some Val.vnull
    ∧ getField (persistLeaf "app-photos" false
        [("p2", ⟨2, Val.vobj [("id", Val.vstr "p2"), ("clicks", Val.vint 0)]⟩)]
        [("p1", ⟨1, Val.vobj [("id", Val.vstr "p1"), ("clicks", Val.vint 3)]⟩)]
        []).pending "app-photos.p2" =
        some (Val.vobj [("id", Val.vstr "p2"), ("clicks", Val.vint 0)])
    ∧ getField (persistLeaf "app-photos" false
        [("p2", ⟨2, Val.vobj [("id", Val.vstr "p2"), ("clicks", Val.vint 0)]⟩)]
        [("p1", ⟨1, Val.vobj [("id", Val.vstr "p1"), ("clicks", Val.vint 3)]⟩)]
        []).pending "app-photos.photoFixed" = none := by
  have h := multiFile_diff_stages_exactly "app-photos" false
    [("p2", ⟨2, Val.vobj [("id", Val.vstr "p2"), ("clicks", Val.vint 0)]⟩)]
    [("p1", ⟨1, Val.vobj [("id", Val.vstr "p1"), ("clicks", Val.vint 3)]⟩)]
    [] (by decide) (by decide)
  refine ⟨h.1 "p1" (by decide) (by decide), ?_, ?_⟩
  · exact h.2.1 "p2" ⟨2, Val.vobj [("id", Val.vstr "p2"), ("clicks", Val.vint 0)]⟩
      (by decide) rfl
  · exact h.2.2.2.2.1 "photoFixed" (by decide) (by decide)

/-- C4: for every engine whose root path is configured with either strategy,
a mutation batch in which every operation touches only the `_persist`
sub-record never stages any entry into the pending write set (the root
subscription callbacks return before staging). -/
theorem rootSubscribe_ignores_persist_only_ops (ops : List Op)
    (h : opsAllPersist ops = true) (filePath : String) (st : ProxyState)
    (snap : Snap) (prev : Snap) (pending : Pending) :
    rootSingleSubscribe filePath st pending ops = pending
    ∧ (rootMultiSubscribe filePath snap prev pending ops).1 = pending := by
  constructor
  · rw [rootSingleSubscribe, if_pos h]
  · rw [rootMultiSubscribe, if_pos h]

/-- Witness for C4: a batch of two status writes, `_persist.loaded` and
`_persist.status`, leaves a nonempty pending set untouched under both root
strategies. -/
theorem rootSubscribe_ignores_persist_only_ops_witness :
    rootSingleSubscribe "app-" [("count", Val.vint 1)] [("x", Val.vint 0)]
      [⟨["_persist", "loaded"]⟩, ⟨["_persist", "status"]⟩] = [("x", Val.vint 0)]
    ∧ (rootMultiSubscribe "app-" [("a", ⟨1, Val.vint 1⟩)] [] [("x", Val.vint 0)]
      [⟨["_persist", "loaded"]⟩, ⟨["_persist", "status"]⟩]).1 = [("x", Val.vint 0)] :=
  rootSubscribe_ignores_persist_only_ops
    [⟨["_persist", "loaded"]⟩, ⟨["_persist", "status"]⟩] (by decide)
    "app-" [("count", Val.vint 1)] [("a", ⟨1, Val.vint 1⟩)] [] [("x", Val.vint 0)]

/-- C9: invoking `bulkWrite` with an empty pending write set performs zero
backend `setItem` and zero backend `removeItem` calls, leaves the storage
untouched, and its event trace is empty. -/
theorem bulkWrite_empty_noop (store : Store) :
    bulkWrite [] store = ([], store, []) ∧ flushTrace [] = [] :=
  ⟨rfl, rfl⟩

theorem getField_runPending_no_unqueue (p : Pending) (evs : List FlushEv) (k : String)
    (h : FlushEv.unqueue k ∉ evs) : getField (runPending p evs) k = getField p k := by
  induction evs generalizing p with
  | nil => rfl
  | cons e rest ih =>
      have hrest : FlushEv.unqueue k ∉ rest := fun hm => h (List.mem_cons_of_mem _ hm)
      show getField (runPending (pendingStep p e) rest) k = _
      rw [ih _ hrest]
      cases e with
      | unqueue k' =>
          have hk' : k' ≠ k := fun he => h (he ▸ List.mem_cons_self _ _)
          exact getField_eraseField_ne _ _ _ hk'
      | call c => rfl

theorem flushTrace_unqueues (entries : Pending) :
    (flushTrace entries).filterMap
        (fun e => match e with | .unqueue k => some k | .call _ => none) =
      entries.map Prod.fst := by
  induction entries with
  | nil => rfl
  | cons e rest ih => simp [flushTrace, List.filterMap_cons] at ih ⊢; exact ih

theorem mem_filterMap_unqueue (evs : List FlushEv) (k : String)
    (h : FlushEv.unqueue k ∈ evs) :
    k ∈ evs.filterMap (fun e => match e with | .unqueue k => some k | .call _ => none) := by
  exact List.mem_filterMap.mpr ⟨.unqueue k, h, rfl⟩

/-- C7: during every flush, each pending entry is removed from the pending
write set strictly before the backend call for that key is performed (the
trace places the unqueue event at index `2*i` and the call at `2*i+1`), and
consequently a write staged for the same key at any point after its unqueue
— in particular while the backend call is in flight — is still present in
the pending set when the flush finishes, left for a subsequent flush. -/
theorem flush_dequeues_before_backend_call :
    (∀ (entries : Pending) (i : Nat) (e : String × Val), entries.get? i = some e →
      (flushTrace entries).get? (2 * i) = some (FlushEv.unqueue e.1)
      ∧ (flushTrace entries).get? (2 * i + 1) = some (FlushEv.call (callOf e)))
    ∧ (∀ (entries : Pending) (pre post : List FlushEv) (k : String) (v : Val)
        (p0 : Pending), (entries.map Prod.fst).Nodup →
        flushTrace entries = pre ++ post → FlushEv.unqueue k ∈ pre →
        getField (runPending (setField (runPending p0 pre) k v) post) k = some v) := by
  constructor
  · intro entries
    induction entries with
    | nil => intro i e he; simp at he
    | cons a rest ih =>
        intro i e he
        cases i with
        | zero =>
            rw [List.get?_cons_zero] at he
            have he' : a = e := Option.some.inj he
            subst he'
            constructor <;> rfl
        | succ j =>
            rw [List.get?_cons_succ] at he
            have := ih j e he
            have h2 : 2 * (j + 1) = (2 * j + 1) + 1 := by ring
            constructor
            · rw [h2]
              show (flushTrace rest).get? (2 * j) = _
              exact this.1
            · rw [h2]
              show (flushTrace rest).get? (2 * j + 1) = _
              exact this.2
  · intro entries pre post k v p0 hnd hsplit hkpre
    have hpost : FlushEv.unqueue k ∉ post := by
      intro hkpost
      have hall : (pre.filterMap
            (fun e => match e with | .unqueue k => some k | .call _ => none))
          ++ (post.filterMap
            (fun e => match e with | .unqueue k => some k | .call _ => none)) =
          entries.map Prod.fst := by
        rw [← List.filterMap_append, ← hsplit, flushTrace_unqueues]
      have hnd2 := hall ▸ hnd
      have := List.disjoint_of_nodup_append hnd2
      exact this (mem_filterMap_unqueue _ _ hkpre) (mem_filterMap_unqueue _ _ hkpost)
    rw [getField_runPending_no_unqueue _ _ _ hpost, getField_setField_self]

/-- Witness for C7: with pending entries `a`, `b`, the trace interleaves
unqueue and call per entry; re-staging `a` after its unqueue but before the
final backend call leaves `a` pending when the flush ends. -/
theorem flush_dequeues_before_backend_call_witness :
    (flushTrace [("a", Val.vint 1), ("b", Val.vint 2)]).get? 2 =
      some (FlushEv.unqueue "b")
    ∧ getField (runPending
        (setField (runPending [("a", Val.vint 1), ("b", Val.vint 2)]
          [FlushEv.unqueue "a", FlushEv.call (BackendCall.setItem "a" (.json (Val.vint 1))),
            FlushEv.unqueue "b"]) "a" (Val.vint 9))
        [FlushEv.call (BackendCall.setItem "b" (.json (Val.vint 2)))]) "a" =
      some (Val.vint 9) := by
  constructor
  · exact (flush_dequeues_before_backend_call.1 [("a", Val.vint 1), ("b", Val.vint 2)]
      1 ("b", Val.vint 2) rfl).1
  · exact flush_dequeues_before_backend_call.2 [("a", Val.vint 1), ("b", Val.vint 2)]
      [FlushEv.unqueue "a", FlushEv.call (BackendCall.setItem "a" (.json (Val.vint 1))),
        FlushEv.unqueue "b"]
      [FlushEv.call (BackendCall.setItem "b" (.json (Val.vint 2)))]
      "a" (Val.vint 9) [("a", Val.vint 1), ("b", Val.vint 2)]
      (by decide) rfl (List.mem_cons_self _ _)

theorem splitChar_ne_nil (sep : Char) (l : List Char) : splitChar sep l ≠ [] := by
  cases l with
  | nil => simp [splitChar]
  | cons c rest =>
      rw [splitChar]
      by_cases hc : c = sep
      · simp [hc]
      · simp only [if_neg hc]
        cases splitChar sep rest <;> simp

theorem toPath_ne_nil (s : String) (h : s ≠ "") : toPath s ≠ [] := by
  rw [toPath, if_neg h]
  intro he
  have := congrArg List.length he
  rw [splitStr, List.length_map] at this
  exact splitChar_ne_nil '.' s.data (List.length_eq_zero.mp this)

theorem getIn_setIn (segs : List String) (w v : Val) :
    Val.getIn (Val.setIn w segs v) segs = some v := by
  induction segs generalizing w with
  | nil => cases w <;> simp [Val.setIn, Val.getIn]
  | cons k rest ih =>
      cases w <;>
        simp only [Val.setIn, Val.getIn, getField_setField_self, Option.some_bind] <;>
        exact ih _

theorem setPath_eq (st : ProxyState) (path : String) (v : Val) (k0 : String)
    (rest : List String) (htp : toPath path = k0 :: rest) :
    st.setPath path v =
      setField st k0 (Val.setIn ((getField st k0).getD (.vobj [])) rest v) := by
  rw [ProxyState.setPath, htp]

theorem getPath_eq (st : ProxyState) (path : String) (k0 : String)
    (rest : List String) (htp : toPath path = k0 :: rest) :
    st.getPath path = (getField st k0).bind (fun c => c.getIn rest) := by
  rw [ProxyState.getPath, htp]

theorem getPath_setPath (st : ProxyState) (path : String) (v : Val)
    (h : toPath path ≠ []) : (st.setPath path v).getPath path = some v := by
  cases htp : toPath path with
  | nil => exact absurd htp h
  | cons k rest =>
      rw [setPath_eq st path v k rest htp, getPath_eq _ path k rest htp,
        getField_setField_self]
      exact getIn_setIn _ _ _

theorem getField_setPath_ne (st : ProxyState) (path : String) (v : Val) (k : String)
    (h : (toPath path).headD "" ≠ k) : getField (st.setPath path v) k = getField st k := by
  cases htp : toPath path with
  | nil => rw [ProxyState.setPath, htp]
  | cons k0 rest =>
      rw [htp] at h
      rw [setPath_eq st path v k0 rest htp]
      exact getField_setField_ne _ _ _ _ (by simpa using h)

theorem getPath_markLoaded (st : ProxyState) (path : String)
    (h : (toPath path).headD "" ≠ "_persist") :
    (markLoaded st).getPath path = st.getPath path := by
  cases htp : toPath path with
  | nil => rw [ProxyState.getPath, ProxyState.getPath, htp]
  | cons k0 rest =>
      rw [htp] at h
      rw [getPath_eq _ path k0 rest htp, getPath_eq _ path k0 rest htp,
        getField_markLoaded_ne _ _ (by simpa using h)]

theorem loadSingleFile_updates_none (name path : String) (store : Store)
    (h : store.read (storageKeyOf name path) = none) :
    (loadSingleFile name path store).updates = [] := by
  rw [loadSingleFile, h]

theorem loadSingleFile_updates_root (name : String) (store : Store) (s : StoredString)
    (h : store.read (storageKeyOf name "") = some s) :
    (loadSingleFile name "" store).updates =
      [.assignRoot (valFields (jsonParse s))] := by
  rw [loadSingleFile, h]
  rfl

theorem loadSingleFile_updates_nonroot (name path : String) (store : Store)
    (s : StoredString) (h : store.read (storageKeyOf name path) = some s)
    (hp : path ≠ "") :
    (loadSingleFile name path store).updates = [.setAt path (jsonParse s)] := by
  rw [loadSingleFile, h]
  show (if path = "" then _ else _ : PathOutcome).updates = _
  rw [if_neg hp]

/-- C6: for every SingleFile path, an absent storage read leaves the state
at that path unchanged (initial state stands); a present payload is parsed
and, at the root path, shallow-merged into the tree field by field
(payload fields win, other fields are untouched), and at a non-root path,
the value at the path is replaced by the parsed payload (other top-level
fields untouched). -/
theorem singleFile_load_reconciliation (name path : String) (store : Store) :
    (store.read (storageKeyOf name path) = none →
      ∀ st : ProxyState,
        (loadSingleFile name path store).updates.foldl applyUpdate st = st)
    ∧ (∀ s, store.read (storageKeyOf name path) = some s → path = "" →
        ((valFields (jsonParse s)).map Prod.fst).Nodup →
        ∀ st : ProxyState,
          (∀ k v', getField (valFields (jsonParse s)) k = some v' →
            getField ((loadSingleFile name path store).updates.foldl applyUpdate st) k
              = some v')
          ∧ (∀ k, (∀ e ∈ valFields (jsonParse s), e.1 ≠ k) →
            getField ((loadSingleFile name path store).updates.foldl applyUpdate st) k
              = getField st k))
    ∧ (∀ s, store.read (storageKeyOf name path) = some s → path ≠ "" →
        ∀ st : ProxyState,
          ((loadSingleFile name path store).updates.foldl applyUpdate st).getPath path
            = some (jsonParse s)
          ∧ (∀ k, (toPath path).headD "" ≠ k →
            getField ((loadSingleFile name path store).updates.foldl applyUpdate st) k
              = getField st k)) := by
  refine ⟨?_, ?_, ?_⟩
  · intro hnone st
    rw [loadSingleFile_updates_none _ _ _ hnone]
    rfl
  · intro s hs hroot hnd st
    subst hroot
    rw [loadSingleFile_updates_root _ _ _ hs]
    constructor
    · intro k v' hk
      exact getField_assignFields_mem _ _ _ _ hnd hk
    · intro k hk
      exact getField_assignFields_notMem _ _ _ hk
  · intro s hs hnroot st
    rw [loadSingleFile_updates_nonroot _ _ _ _ hs hnroot]
    constructor
    · exact getPath_setPath _ _ _ (toPath_ne_nil _ hnroot)
    · intro k hk
      exact getField_setPath_ne _ _ _ _ hk

/-- Witness for C6: an absent read of `"app-count"` leaves the state
unchanged; a present root payload `{"count": 3}` merges `count` and keeps
`other`; a present payload `7` at non-root `"count"` replaces the value
there. -/
theorem singleFile_load_reconciliation_witness :
    (loadSingleFile "app" "count" []).updates.foldl applyUpdate
        [("count", Val.vint 0)] = [("count", Val.vint 0)]
    ∧ getField ((loadSingleFile "app" ""
        [("app-", .json (Val.vobj [("count", Val.vint 3)]))]).updates.foldl applyUpdate
        [("count", Val.vint 0), ("other", Val.vint 5)]) "count" = some (Val.vint 3)
    ∧ getField ((loadSingleFile "app" ""
        [("app-", .json (Val.vobj [("count", Val.vint 3)]))]).updates.foldl applyUpdate
        [("count", Val.vint 0), ("other", Val.vint 5)]) "other" = some (Val.vint 5)
    ∧ ProxyState.getPath ((loadSingleFile "app" "count"
        [("app-count", .json (Val.vint 7))]).updates.foldl applyUpdate
        [("count", Val.vint 0)]) "count" = some (Val.vint 7) := by
  have h1 := (singleFile_load_reconciliation "app" "count" []).1 rfl [("count", Val.vint 0)]
  have h2 := (singleFile_load_reconciliation "app" ""
    [("app-", .json (Val.vobj [("count", Val.vint 3)]))]).2.1
    (.json (Val.vobj [("count", Val.vint 3)])) rfl rfl (by decide)
    [("count", Val.vint 0), ("other", Val.vint 5)]
  have h3 := (singleFile_load_reconciliation "app" "count"
    [("app-count", .json (Val.vint 7))]).2.2
    (.json (Val.vint 7)) rfl (by decide) [("count", Val.vint 0)]
  exact ⟨h1, h2.1 "count" (Val.vint 3) rfl, h2.2 "other" (by decide), h3.1⟩

theorem matchesMulti_startsWith (name path k : String)
    (h : matchesMulti name path k = true) : strStartsWith k (name ++ "-") = true := by
  rw [matchesMulti, Bool.and_eq_true] at h
  exact h.1

theorem strLen_name_dash (name : String) : strLen (name ++ "-") = strLen name + 1 := by
  rw [strLen_append]
  rfl

theorem loadMultiFile_ok_eq (name path : String) (allKeys : List String) (store : Store) :
    (loadMultiFile name path allKeys store).ok =
      ((allKeys.filter (matchesMulti name path)).map (loadMultiKey name store)).all
        Except.isOk := rfl

theorem loadMultiFile_updates_eq (name path : String) (allKeys : List String)
    (store : Store) :
    (loadMultiFile name path allKeys store).updates =
      ((allKeys.filter (matchesMulti name path)).map (loadMultiKey name store)).filterMap
        Except.toOption := rfl

theorem loadMultiKey_isOk_false (name : String) (store : Store) (k : String) :
    (loadMultiKey name store k).isOk = false ↔ store.read k = none := by
  rw [loadMultiKey]
  cases store.read k <;> simp [Except.isOk, Except.toBool]

/-- C8: MultiFile load raises MissingFileError exactly when a key returned
by the backend enumeration and matching both filters (name prefix and the
path's storage key) is subsequently read as absent; such a failure aborts
that path's load in the sense that no reconciliation write for the failing
key is produced. -/
theorem multiFile_load_missingFileError (name path : String) (allKeys : List String)
    (store : Store) :
    ((loadMultiFile name path allKeys store).ok = false ↔
      ∃ k ∈ allKeys.filter (matchesMulti name path), store.read k = none)
    ∧ (∀ k, k ∈ allKeys.filter (matchesMulti name path) → store.read k = none →
        ∀ v, LoadUpdate.setAt (strDrop k (strLen name + 1)) v ∉
          (loadMultiFile name path allKeys store).updates) := by
  constructor
  · rw [loadMultiFile_ok_eq, List.all_eq_false]
    constructor
    · rintro ⟨r, hr, hro⟩
      obtain ⟨k, hk, rfl⟩ := List.mem_map.mp hr
      refine ⟨k, hk, (loadMultiKey_isOk_false name store k).mp ?_⟩
      simpa using hro
    · rintro ⟨k, hk, hkn⟩
      refine ⟨loadMultiKey name store k, List.mem_map_of_mem _ hk, ?_⟩
      simp [(loadMultiKey_isOk_false _ _ _).mpr hkn]
  · intro k hk hkn v hmem
    rw [loadMultiFile_updates_eq] at hmem
    obtain ⟨r, hr, hro⟩ := List.mem_filterMap.mp hmem
    obtain ⟨k', hk', rfl⟩ := List.mem_map.mp hr
    rw [loadMultiKey] at hro
    cases hr' : store.read k' with
    | none =>
        rw [hr'] at hro
        simp [Except.toOption] at hro
    | some s =>
        rw [hr'] at hro
        simp only [Except.toOption, Option.some.injEq] at hro
        injection hro with hkey hveq
        rw [← strLen_name_dash] at hkey
        have hk'k : k' = k := strDrop_inj_of_startsWith _ _ _
          (matchesMulti_startsWith _ _ _ (List.mem_filter.mp hk').2)
          (matchesMulti_startsWith _ _ _ (List.mem_filter.mp hk).2) hkey
        rw [hk'k, hkn] at hr'
        exact Option.noConfusion hr'

/-- Witness for C8: the enumeration lists `"app-photos.p1"` for the
`photos` path, but the store has no record under that key — the path load
fails, and no write for child `photos.p1` is produced. -/
theorem multiFile_load_missingFileError_witness :
    (loadMultiFile "app" "photos" ["app-photos.p1"] []).ok = false
    ∧ LoadUpdate.setAt (strDrop "app-photos.p1" (strLen "app" + 1)) (Val.vint 5) ∉
        (loadMultiFile "app" "photos" ["app-photos.p1"] []).updates := by
  have h := multiFile_load_missingFileError "app" "photos" ["app-photos.p1"] []
  exact ⟨h.1.mpr ⟨"app-photos.p1", by decide, rfl⟩,
    h.2 "app-photos.p1" (by decide) rfl (Val.vint 5)⟩

theorem callOf_of_ne_null (k : String) (v : Val) (h : v ≠ Val.vnull) :
    callOf (k, v) = .setItem k (jsonStringify v) := by
  cases v with
  | vnull => exact absurd rfl h
  | vbool b => rfl
  | vint n => rfl
  | vstr s => rfl
  | vobj fs => rfl

theorem bulkWrite_single_set (fp : String) (v : Val) (store : Store)
    (h : v ≠ Val.vnull) :
    (bulkWrite [(fp, v)] store).2.1 = setField store fp (.json v) := by
  cases v with
  | vnull => exact absurd rfl h
  | vbool b => rfl
  | vint n => rfl
  | vstr s => rfl
  | vobj fs => rfl

theorem loadSingleFile_ok (name path : String) (store : Store) :
    (loadSingleFile name path store).ok = true := by
  rw [loadSingleFile]
  cases store.read (storageKeyOf name path) with
  | none => rfl
  | some s =>
      show (if path = "" then _ else _ : PathOutcome).ok = true
      by_cases hp : path = ""
      · rw [if_pos hp]
      · rw [if_neg hp]

theorem startupUpdates_singlePath (name path : String) (version : Int)
    (migrate : List Int) (initialState : List (String × Val))
    (strategy : PersistStrategy) (store : Store) :
    startupUpdates ⟨name, version, .perPath [(path, strategy)], migrate, initialState⟩
        store =
      (loadPathOutcome name
        (startupAllKeys ⟨name, version, .perPath [(path, strategy)], migrate, initialState⟩
          store) store (path, strategy)).updates := by
  simp [startupUpdates, startupOutcomes, entriesOf]

theorem startupOk_singlePath (name path : String) (version : Int)
    (migrate : List Int) (initialState : List (String × Val))
    (strategy : PersistStrategy) (store : Store) :
    startupOk ⟨name, version, .perPath [(path, strategy)], migrate, initialState⟩ store =
      (loadPathOutcome name
        (startupAllKeys ⟨name, version, .perPath [(path, strategy)], migrate, initialState⟩
          store) store (path, strategy)).ok := by
  simp [startupOk, startupOutcomes, entriesOf]

theorem persistPath_ok_of_ne_null (fp : String) (v : Val) (pending : Pending)
    (h : v ≠ Val.vnull) :
    persistPath fp v pending = .ok (setField pending fp v) := by
  cases v with
  | vnull => exact absurd rfl h
  | vbool b => rfl
  | vint n => rfl
  | vstr s => rfl
  | vobj fs => rfl

/-- Counterexample for C3 as stated: mutating a SingleFile path to the
value `null` (a legal JSON value) routes it into valtio's `snapshot`
(`typeof null === 'object'`), which throws before anything is staged — the
pending set stays empty, the flush performs zero backend calls, and the
fresh engine keeps its initial `count = 0` instead of observing `null`. -/
theorem roundTrip_null_counterexample :
    persistPath (storageKeyOf "app" "count") Val.vnull [] =
      .error "TypeError: cannot snapshot null"
    ∧ (bulkWrite [] []).2.2 = []
    ∧ ProxyState.getPath
        (startupState
          ⟨"app", 0, .perPath [("count", .SingleFile)], [], [("count", Val.vint 0)]⟩
          [])
        "count" = some (Val.vint 0)
    ∧ some (Val.vint 0) ≠ some Val.vnull := by
  refine ⟨rfl, rfl, rfl, ?_⟩
  intro h
  exact Val.noConfusion (Option.some.inj h)

/-- C3 (amended): round trip for a SingleFile (whole-value) path — for
every non-null value `v` (mutating the path to `null` instead throws inside
the staging callback, because `typeof null === 'object'` routes `null` into
valtio's `snapshot`; nothing is staged and the fresh engine keeps the prior
value, see the counterexample), if an engine mutates the path to `v`, which
stages it under the path's storage key, and flushes, then a fresh engine
constructed against the resulting storage with the same name and
configuration observes, after its load completes, the value `v` at that
path. -/
theorem roundTrip_singleFile_wholeValue (name path : String) (version : Int)
    (initialState : List (String × Val)) (migrate : List Int)
    (v : Val) (store0 : Store)
    (hpath : path ≠ "") (hhead : (toPath path).headD "" ≠ "_persist")
    (hv : v ≠ Val.vnull) :
    persistPath (storageKeyOf name path) v [] = .ok [(storageKeyOf name path, v)]
    ∧ ProxyState.getPath
        (startupState ⟨name, version, .perPath [(path, .SingleFile)], migrate, initialState⟩
          (bulkWrite [(storageKeyOf name path, v)] store0).2.1)
        path = some v
    ∧ startupOk ⟨name, version, .perPath [(path, .SingleFile)], migrate, initialState⟩
        (bulkWrite [(storageKeyOf name path, v)] store0).2.1 = true := by
  have hstage : persistPath (storageKeyOf name path) v [] =
      .ok [(storageKeyOf name path, v)] := persistPath_ok_of_ne_null _ _ _ hv
  have hstore1 : (bulkWrite [(storageKeyOf name path, v)] store0).2.1 =
      setField store0 (storageKeyOf name path) (.json v) :=
    bulkWrite_single_set _ _ _ hv
  have hread : ((bulkWrite [(storageKeyOf name path, v)] store0).2.1).read
      (storageKeyOf name path) = some (.json v) := by
    rw [hstore1]
    exact getField_setField_self _ _ _
  have hupd : startupUpdates
      ⟨name, version, .perPath [(path, .SingleFile)], migrate, initialState⟩
      (bulkWrite [(storageKeyOf name path, v)] store0).2.1 =
      [.setAt path v] := by
    rw [startupUpdates_singlePath]
    show (loadSingleFile name path _).updates = _
    rw [loadSingleFile_updates_nonroot _ _ _ _ hread hpath]
    rfl
  have hok : startupOk
      ⟨name, version, .perPath [(path, .SingleFile)], migrate, initialState⟩
      (bulkWrite [(storageKeyOf name path, v)] store0).2.1 = true := by
    rw [startupOk_singlePath]
    exact loadSingleFile_ok _ _ _
  refine ⟨hstage, ?_, hok⟩
  rw [startupState]
  rw [hupd, hok]
  show ProxyState.getPath (markLoaded (applyUpdate _ (.setAt path v))) path = some v
  rw [getPath_markLoaded _ _ hhead]
  show ProxyState.getPath (ProxyState.setPath _ path v) path = some v
  exact getPath_setPath _ _ _ (toPath_ne_nil _ hpath)

/-- Witness for C3 (amended): mutate `count` to `7` (staged as an `.ok`
pending entry), flush, reconstruct against the same storage — the fresh
engine reads `7` after load. -/
theorem roundTrip_singleFile_wholeValue_witness :
    persistPath (storageKeyOf "app" "count") (Val.vint 7) [] =
      .ok [(storageKeyOf "app" "count", Val.vint 7)]
    ∧ ProxyState.getPath
        (startupState ⟨"app", 0, .perPath [("count", .SingleFile)], [], [("count", Val.vint 0)]⟩
          (bulkWrite [(storageKeyOf "app" "count", Val.vint 7)] []).2.1)
        "count" = some (Val.vint 7) :=
  ⟨(roundTrip_singleFile_wholeValue "app" "count" 0 [("count", Val.vint 0)] []
      (Val.vint 7) [] (by decide) (by decide) (fun h => Val.noConfusion h)).1,
   (roundTrip_singleFile_wholeValue "app" "count" 0 [("count", Val.vint 0)] []
      (Val.vint 7) [] (by decide) (by decide) (fun h => Val.noConfusion h)).2.1⟩

theorem startupEvents_no_migration (inputs : Inputs) (store : Store) :
    ∀ e ∈ startupEvents inputs store,
      (match e with | .runMigration k => some k | _ => none) = (none : Option Int) := by
  intro e he
  rw [startupEvents] at he
  rcases List.mem_append.mp he with h1 | h2
  · by_cases hm : usesMultiFile inputs.strategies = true
    · rw [if_pos hm] at h1
      rcases List.mem_cons.mp h1 with he1 | he1
      · subst he1; rfl
      · simp at he1
    · rw [if_neg hm] at h1
      simp at h1
  · obtain ⟨entry, -, hpe⟩ := List.mem_flatMap.mp h2
    obtain ⟨path, strategy⟩ := entry
    cases strategy with
    | SingleFile =>
        rcases List.mem_cons.mp hpe with he1 | he1
        · subst he1; rfl
        · simp at he1
    | MultiFile =>
        obtain ⟨k, -, rfl⟩ := List.mem_map.mp hpe
        rfl

/-- C1 is contradicted by the code: the spec's MigrationRunner contract
(invoke each migration key in `(persistedVersion, targetVersion]` ascending,
here `(0, 21]` over keys `{16, 20, 21}`, since a fresh store holds no
persisted version) requires the plan `[16, 20, 21]`, but `proxyWithPersist`
never reads `inputs.migrate` — no startup of any configuration over any
store emits a single migration invocation — while the startup still reaches
the Loaded status. -/
theorem migrations_never_invoked :
    specMigrationPlan 0 21 [16, 20, 21] = [16, 20, 21]
    ∧ migrationRunsOf (startupEvents
        ⟨"app", 21, .perPath [("count", .SingleFile)], [16, 20, 21],
          [("count", Val.vint 0)]⟩ []) = []
    ∧ statusStrOf (startupState
        ⟨"app", 21, .perPath [("count", .SingleFile)], [16, 20, 21],
          [("count", Val.vint 0)]⟩ []) = some "loaded"
    ∧ ∀ (inputs : Inputs) (store : Store),
        migrationRunsOf (startupEvents inputs store) = [] := by
  refine ⟨by decide, rfl, rfl, ?_⟩
  intro inputs store
  rw [migrationRunsOf, List.filterMap_eq_nil_iff]
  exact startupEvents_no_migration inputs store

theorem statusStrOf_setPersist (st : ProxyState) (pfs : List (String × Val)) :
    statusStrOf (setField st "_persist" (.vobj pfs)) =
      (match getField pfs "status" with
        | some (.vstr s) => some s
        | _ => none) := by
  rw [statusStrOf, getField_setField_self]

theorem loadingFlagsOf_setPersist (st : ProxyState) (pfs : List (String × Val)) :
    loadingFlagsOf (setField st "_persist" (.vobj pfs)) =
      (match getField pfs "loading", getField pfs "loaded" with
        | some (.vbool l), some (.vbool d) => some (l, d)
        | _, _ => none) := by
  rw [loadingFlagsOf, getField_setField_self]

theorem getField_assign3_status (pfs : List (String × Val)) (a b c : Val) :
    getField (assignFields pfs [("loaded", a), ("loading", b), ("status", c)])
      "status" = some c := by
  show getField (setField (setField (setField pfs "loaded" a) "loading" b)
    "status" c) "status" = some c
  exact getField_setField_self _ _ _

theorem getField_assign3_loading (pfs : List (String × Val)) (a b c : Val) :
    getField (assignFields pfs [("loaded", a), ("loading", b), ("status", c)])
      "loading" = some b := by
  show getField (setField (setField (setField pfs "loaded" a) "loading" b)
    "status" c) "loading" = some b
  rw [getField_setField_ne _ _ _ _ (by decide), getField_setField_self]

theorem getField_assign3_loaded (pfs : List (String × Val)) (a b c : Val) :
    getField (assignFields pfs [("loaded", a), ("loading", b), ("status", c)])
      "loaded" = some a := by
  show getField (setField (setField (setField pfs "loaded" a) "loading" b)
    "status" c) "loaded" = some a
  rw [getField_setField_ne _ _ _ _ (by decide), getField_setField_ne _ _ _ _ (by decide),
    getField_setField_self]

theorem statusStrOf_construct (inputs : Inputs) :
    statusStrOf (construct inputs) = some "loading" := by
  rw [construct]
  show statusStrOf (setField _ "_persist" (.vobj _)) = _
  rw [statusStrOf_setPersist]
  rfl

theorem loadingFlagsOf_construct (inputs : Inputs) :
    loadingFlagsOf (construct inputs) = some (true, false) := by
  rw [construct]
  show loadingFlagsOf (setField _ "_persist" (.vobj _)) = _
  rw [loadingFlagsOf_setPersist]
  rfl

theorem statusStrOf_markLoaded (st : ProxyState) (pfs : List (String × Val))
    (h : getField st "_persist" = some (.vobj pfs)) :
    statusStrOf (markLoaded st) = some "loaded" := by
  rw [markLoaded, h, statusStrOf_setPersist, getField_assign3_status]

theorem loadingFlagsOf_markLoaded (st : ProxyState) (pfs : List (String × Val))
    (h : getField st "_persist" = some (.vobj pfs)) :
    loadingFlagsOf (markLoaded st) = some (false, true) := by
  rw [markLoaded, h, loadingFlagsOf_setPersist, getField_assign3_loading,
    getField_assign3_loaded]

theorem getField_applyUpdate_persist (st : ProxyState) (u : LoadUpdate)
    (h : touchesPersist u = false) :
    getField (applyUpdate st u) "_persist" = getField st "_persist" := by
  cases u with
  | assignRoot fs =>
      rw [touchesPersist] at h
      apply getField_assignFields_notMem
      intro e he heq
      have := (List.any_eq_false.mp h) e he
      rw [heq] at this
      simp at this
  | setAt p v =>
      rw [touchesPersist] at h
      exact getField_setPath_ne st p v "_persist" (beq_eq_false_iff_ne.mp h)

theorem getField_foldl_persist (updates : List LoadUpdate) (st : ProxyState)
    (h : ∀ u ∈ updates, touchesPersist u = false) :
    getField (updates.foldl applyUpdate st) "_persist" = getField st "_persist" := by
  induction updates generalizing st with
  | nil => rfl
  | cons u rest ih =>
      show getField (rest.foldl applyUpdate (applyUpdate st u)) "_persist" = _
      rw [ih _ (fun u' hu' => h u' (List.mem_cons_of_mem _ hu')),
        getField_applyUpdate_persist _ _ (h u (List.mem_cons_self _ _))]

theorem statusStrOf_congr (a b : ProxyState)
    (h : getField a "_persist" = getField b "_persist") :
    statusStrOf a = statusStrOf b := by
  rw [statusStrOf, statusStrOf, h]

theorem statesFrom_status (updates : List LoadUpdate) (st : ProxyState)
    (h : ∀ u ∈ updates, touchesPersist u = false) :
    (statesFrom st updates).map statusStrOf =
      List.replicate (updates.length + 1) (statusStrOf st) := by
  induction updates generalizing st with
  | nil => rfl
  | cons u rest ih =>
      show statusStrOf st :: (statesFrom (applyUpdate st u) rest).map statusStrOf = _
      rw [ih _ (fun u' hu' => h u' (List.mem_cons_of_mem _ hu')),
        statusStrOf_congr (applyUpdate st u) st
          (getField_applyUpdate_persist _ _ (h u (List.mem_cons_self _ _))),
        List.length_cons, List.replicate_succ _ (rest.length + 1)]

theorem countLL_replicate (m : Nat) :
    countLoadingToLoaded (List.replicate (m + 1) (some "loading")) = 0 := by
  induction m with
  | zero => rfl
  | succ n ih =>
      rw [List.replicate_succ _ (n + 1), List.replicate_succ _ n]
      show (if some "loading" = some "loading" ∧ some "loading" = some "loaded"
        then 1 else 0) + countLoadingToLoaded (some "loading" :: List.replicate n
          (some "loading")) = 0
      rw [if_neg (by simp), ← List.replicate_succ _ n, ih]

theorem countLL_replicate_append (m : Nat) :
    countLoadingToLoaded
      (List.replicate (m + 1) (some "loading") ++ [some "loaded"]) = 1 := by
  induction m with
  | zero => rfl
  | succ n ih =>
      rw [List.replicate_succ _ (n + 1), List.replicate_succ _ n]
      show (if some "loading" = some "loading" ∧ some "loading" = some "loaded"
        then 1 else 0) + countLoadingToLoaded ((some "loading" :: List.replicate n
          (some "loading")) ++ [some "loaded"]) = 1
      rw [if_neg (by simp), ← List.replicate_succ _ n, ih]

theorem statusTrace_char (inputs : Inputs) (store : Store)
    (hp : ∀ u ∈ startupUpdates inputs store, touchesPersist u = false) :
    statusTrace inputs store =
      List.replicate ((startupUpdates inputs store).length + 1) (some "loading")
        ++ (if startupOk inputs store then [some "loaded"] else []) := by
  have hpersist : getField ((startupUpdates inputs store).foldl applyUpdate
      (construct inputs)) "_persist" =
      some (persistLoading inputs.version) := by
    rw [getField_foldl_persist _ _ hp, construct, getField_setField_self]
  rw [statusTrace, startupStates, List.map_append, statesFrom_status _ _ hp,
    statusStrOf_construct]
  congr 1
  by_cases hok : startupOk inputs store = true
  · rw [if_pos hok, if_pos hok]
    show [statusStrOf (markLoaded _)] = _
    rw [statusStrOf_markLoaded _ _ hpersist]
  · rw [if_neg hok, if_neg hok]
    rfl

theorem statesFrom_ne_nil (st : ProxyState) (updates : List LoadUpdate) :
    statesFrom st updates ≠ [] := by
  cases updates <;> simp [statesFrom]

theorem statesFrom_append (xs ys : List LoadUpdate) (st : ProxyState) :
    statesFrom st (xs ++ ys) =
      (statesFrom st xs).dropLast ++ statesFrom (xs.foldl applyUpdate st) ys := by
  induction xs generalizing st with
  | nil => simp [statesFrom]
  | cons x xs ih =>
      show st :: statesFrom (applyUpdate st x) (xs ++ ys) = _
      rw [ih]
      show _ = (st :: statesFrom (applyUpdate st x) xs).dropLast ++ _
      rw [List.dropLast_cons_of_ne_nil (statesFrom_ne_nil _ _)]
      rfl

theorem countLL_const (x : Option String) (m : Nat) :
    countLoadingToLoaded (List.replicate m x) = 0 := by
  induction m with
  | zero => rfl
  | succ n ih =>
      cases n with
      | zero => rfl
      | succ m' =>
          rw [List.replicate_succ, List.replicate_succ]
          show (if x = some "loading" ∧ x = some "loaded" then 1 else 0)
            + countLoadingToLoaded (x :: List.replicate m' x) = 0
          rw [if_neg ?hne, ← List.replicate_succ, ih]
          case hne =>
            rintro ⟨hx1, hx2⟩
            rw [hx1] at hx2
            exact absurd (Option.some.inj hx2) (by decide)

theorem countLL_L_then_D (p r : Nat) :
    countLoadingToLoaded (List.replicate (p + 1) (some "loading")
      ++ List.replicate (r + 1) (some "loaded")) = 1 := by
  induction p with
  | zero =>
      rw [List.replicate_succ, List.replicate_succ]
      show (if (some "loading" : Option String) = some "loading"
          ∧ (some "loaded" : Option String) = some "loaded" then 1 else 0)
        + countLoadingToLoaded (some "loaded" :: List.replicate r (some "loaded")) = 1
      rw [if_pos ⟨rfl, rfl⟩, ← List.replicate_succ, countLL_const]
  | succ n ih =>
      rw [List.replicate_succ, List.replicate_succ]
      show (if (some "loading" : Option String) = some "loading"
          ∧ (some "loading" : Option String) = some "loaded" then 1 else 0)
        + countLoadingToLoaded ((some "loading" :: List.replicate n (some "loading"))
            ++ List.replicate (r + 1) (some "loaded")) = 1
      rw [if_neg (by rintro ⟨-, h⟩; exact absurd (Option.some.inj h) (by decide)),
        ← List.replicate_succ, ih]

theorem touch_split (updates : List LoadUpdate)
    (h1 : (updates.filter touchesPersist).length ≤ 1) :
    (∀ u ∈ updates, touchesPersist u = false)
    ∨ ∃ A t B, updates = A ++ t :: B ∧ touchesPersist t = true
        ∧ (∀ u ∈ A, touchesPersist u = false)
        ∧ (∀ u ∈ B, touchesPersist u = false) := by
  induction updates with
  | nil => exact Or.inl (by simp)
  | cons u rest ih =>
      by_cases hu : touchesPersist u = true
      · right
        have hrest : ∀ u' ∈ rest, touchesPersist u' = false := by
          rw [List.filter_cons_of_pos hu, List.length_cons,
            Nat.succ_le_succ_iff, Nat.le_zero, List.length_eq_zero] at h1
          intro u' hu'
          have := List.filter_eq_nil_iff.mp h1 u' hu'
          simpa using this
        exact ⟨[], u, rest, rfl, hu, by simp, hrest⟩
      · have hu' : touchesPersist u = false := by simpa using hu
        have h1' : (rest.filter touchesPersist).length ≤ 1 := by
          rw [List.filter_cons_of_neg (by simp [hu'])] at h1
          exact h1
        rcases ih h1' with hl | ⟨A, t, B, hAB, ht, hA, hB⟩
        · refine Or.inl ?_
          intro x hx
          rcases List.mem_cons.mp hx with rfl | hx'
          · exact hu'
          · exact hl x hx'
        · refine Or.inr ⟨u :: A, t, B, by rw [hAB]; rfl, ht, ?_, hB⟩
          intro x hx
          rcases List.mem_cons.mp hx with rfl | hx'
          · exact hu'
          · exact hA x hx'

theorem getField_assignFields_exists {α : Type} (target source : List (String × α))
    (k : String) (hk : source.any (fun e => e.1 == k) = true) :
    ∃ e ∈ source, e.1 = k ∧ getField (assignFields target source) k = some e.2 := by
  induction source generalizing target with
  | nil => simp at hk
  | cons e rest ih =>
      by_cases hr : rest.any (fun e => e.1 == k) = true
      · obtain ⟨e', he', hk', hg⟩ := ih (setField target e.1 e.2) hr
        exact ⟨e', List.mem_cons_of_mem _ he', hk', hg⟩
      · have he : e.1 = k := by
          rw [List.any_cons] at hk
          rcases Bool.or_eq_true_iff.mp hk with h | h
          · simpa using h
          · exact absurd h hr
        have hr' : rest.any (fun e => e.1 == k) = false := Bool.eq_false_iff.mpr hr
        have hrest : ∀ e' ∈ rest, e'.1 ≠ k := by
          intro e' he'
          have := List.any_eq_false.mp hr' e' he'
          simpa using this
        refine ⟨e, List.mem_cons_self _ _, he, ?_⟩
        show getField (assignFields (setField target e.1 e.2) rest) k = some e.2
        rw [getField_assignFields_notMem _ _ _ hrest, ← he, getField_setField_self]

theorem applyUpdate_benign_persist (st : ProxyState) (u : LoadUpdate)
    (hb : benignUpdate u = true) :
    getField (applyUpdate st u) "_persist" = getField st "_persist"
    ∨ ∃ v, getField (applyUpdate st u) "_persist" = some v
        ∧ selfPersistRecord v = true := by
  cases u with
  | setAt p v =>
      left
      rw [benignUpdate] at hb
      refine getField_setPath_ne st p v "_persist" ?_
      simpa using hb
  | assignRoot fs =>
      rw [benignUpdate] at hb
      by_cases hk : fs.any (fun e => e.1 == "_persist") = true
      · right
        obtain ⟨e, he, hk', hg⟩ := getField_assignFields_exists st fs "_persist" hk
        refine ⟨e.2, hg, ?_⟩
        have hbe := List.all_eq_true.mp hb e he
        rcases Bool.or_eq_true_iff.mp hbe with h | h
        · rw [hk'] at h
          simp at h
        · exact h
      · left
        show getField (assignFields st fs) "_persist" = _
        apply getField_assignFields_notMem
        intro e he heq
        apply hk
        rw [List.any_eq_true]
        exact ⟨e, he, by simp [heq]⟩

theorem benign_touching_shape (st : ProxyState) (u : LoadUpdate)
    (hb : benignUpdate u = true) (ht : touchesPersist u = true) :
    ∃ v, getField (applyUpdate st u) "_persist" = some v
      ∧ selfPersistRecord v = true := by
  cases u with
  | setAt p v =>
      rw [benignUpdate] at hb
      rw [touchesPersist] at ht
      rw [ht] at hb
      simp at hb
  | assignRoot fs =>
      rw [touchesPersist] at ht
      rw [benignUpdate] at hb
      obtain ⟨e, he, hk', hg⟩ := getField_assignFields_exists st fs "_persist" ht
      refine ⟨e.2, hg, ?_⟩
      have hbe := List.all_eq_true.mp hb e he
      rcases Bool.or_eq_true_iff.mp hbe with h | h
      · rw [hk'] at h
        simp at h
      · exact h

theorem persistStateShape_foldl (updates : List LoadUpdate) (st : ProxyState)
    (hsh : persistStateShape st = true)
    (hb : ∀ u ∈ updates, benignUpdate u = true) :
    persistStateShape (updates.foldl applyUpdate st) = true := by
  induction updates generalizing st with
  | nil => exact hsh
  | cons u rest ih =>
      show persistStateShape (rest.foldl applyUpdate (applyUpdate st u)) = true
      refine ih _ ?_ (fun u' hu' => hb u' (List.mem_cons_of_mem _ hu'))
      rcases applyUpdate_benign_persist st u (hb u (List.mem_cons_self _ _)) with
        h | ⟨v, hv, hsv⟩
      · rw [persistStateShape] at hsh ⊢
        rw [h]
        exact hsh
      · rw [persistStateShape, hv]
        exact hsv

theorem selfPersistRecord_destruct (v : Val) (h : selfPersistRecord v = true) :
    ∃ fs s, v = .vobj fs ∧ getField fs "status" = some (.vstr s)
      ∧ (s = "loading" ∨ s = "loaded") := by
  cases v with
  | vobj fs =>
      rw [selfPersistRecord] at h
      cases hs : getField fs "status" with
      | none =>
          rw [hs] at h
          simp at h
      | some sv =>
          cases sv with
          | vstr s =>
              rw [hs] at h
              refine ⟨fs, s, rfl, hs, ?_⟩
              rcases Bool.or_eq_true_iff.mp h with h1 | h1
              · exact Or.inl (by simpa using h1)
              · exact Or.inr (by simpa using h1)
          | vnull => rw [hs] at h; simp at h
          | vbool b => rw [hs] at h; simp at h
          | vint n => rw [hs] at h; simp at h
          | vobj fs2 => rw [hs] at h; simp at h
  | vnull => simp [selfPersistRecord] at h
  | vbool b => simp [selfPersistRecord] at h
  | vint n => simp [selfPersistRecord] at h
  | vstr s => simp [selfPersistRecord] at h

theorem statusStrOf_of_persist (st : ProxyState) (fs : List (String × Val))
    (h : getField st "_persist" = some (.vobj fs)) :
    statusStrOf st =
      (match getField fs "status" with
        | some (.vstr s) => some s
        | _ => none) := by
  rw [statusStrOf, h]

theorem construct_persistStateShape (inputs : Inputs) :
    persistStateShape (construct inputs) = true := by
  rw [persistStateShape, construct, getField_setField_self]
  rfl

theorem persistStateShape_destruct (st : ProxyState)
    (h : persistStateShape st = true) :
    ∃ fs, getField st "_persist" = some (.vobj fs) := by
  rw [persistStateShape] at h
  cases hg : getField st "_persist" with
  | none =>
      rw [hg] at h
      simp at h
  | some v =>
      rw [hg] at h
      obtain ⟨fs, s, rfl, -, -⟩ := selfPersistRecord_destruct v h
      exact ⟨fs, rfl⟩

theorem markLoaded_final_status (inputs : Inputs) (store : Store)
    (hb : ∀ u ∈ startupUpdates inputs store, benignUpdate u = true) :
    statusStrOf (markLoaded ((startupUpdates inputs store).foldl applyUpdate
      (construct inputs))) = some "loaded"
    ∧ loadingFlagsOf (markLoaded ((startupUpdates inputs store).foldl applyUpdate
      (construct inputs))) = some (false, true) := by
  obtain ⟨fs, hfs⟩ := persistStateShape_destruct _
    (persistStateShape_foldl _ _ (construct_persistStateShape inputs) hb)
  exact ⟨statusStrOf_markLoaded _ _ hfs, loadingFlagsOf_markLoaded _ _ hfs⟩

theorem replicate_append_cons (m : Nat) (a : Option String)
    (X : List (Option String)) :
    List.replicate m a ++ a :: X = List.replicate (m + 1) a ++ X := by
  rw [List.replicate_succ' m a, List.append_assoc]
  rfl

theorem statusTrace_shape (inputs : Inputs) (store : Store)
    (hb : ∀ u ∈ startupUpdates inputs store, benignUpdate u = true)
    (h1 : ((startupUpdates inputs store).filter touchesPersist).length ≤ 1) :
    ∃ p q s, (s = some "loading" ∨ s = some "loaded")
      ∧ statusTrace inputs store =
          List.replicate (p + 1) (some "loading") ++ List.replicate q s
            ++ (if startupOk inputs store then [some "loaded"] else []) := by
  rcases touch_split (startupUpdates inputs store) h1 with hall | ⟨A, t, B, heq, ht, hA, hB⟩
  · refine ⟨(startupUpdates inputs store).length, 0, some "loading", Or.inl rfl, ?_⟩
    rw [statusTrace_char inputs store hall, List.replicate_zero, List.append_nil]
  · have htb : benignUpdate t = true := by
      refine hb t ?_
      rw [heq]
      exact List.mem_append_right _ (List.mem_cons_self _ _)
    obtain ⟨v, hv, hsv⟩ := benign_touching_shape
      (A.foldl applyUpdate (construct inputs)) t htb ht
    obtain ⟨fsT, sT, hveq, hstatusT, hsT⟩ := selfPersistRecord_destruct v hsv
    subst hveq
    have hstatus_stA : statusStrOf (A.foldl applyUpdate (construct inputs)) =
        some "loading" :=
      (statusStrOf_congr _ _ (getField_foldl_persist A (construct inputs) hA)).trans
        (statusStrOf_construct inputs)
    have hstatus_stT :
        statusStrOf (applyUpdate (A.foldl applyUpdate (construct inputs)) t) =
          some sT := by
      have h2 := statusStrOf_of_persist _ fsT hv
      rw [hstatusT] at h2
      exact h2
    have hopt : (if startupOk inputs store then
          [markLoaded ((startupUpdates inputs store).foldl applyUpdate
            (construct inputs))] else []).map statusStrOf =
        (if startupOk inputs store then [some "loaded"] else []) := by
      by_cases hok : startupOk inputs store = true
      · rw [if_pos hok, if_pos hok]
        show [statusStrOf (markLoaded _)] = _
        rw [(markLoaded_final_status inputs store hb).1]
      · rw [if_neg hok, if_neg hok]
        rfl
    have hmapA : ((statesFrom (construct inputs) A).dropLast).map statusStrOf
        = List.replicate A.length (some "loading") := by
      rw [List.map_dropLast, statesFrom_status A (construct inputs) hA,
        statusStrOf_construct, List.replicate_succ' A.length, List.dropLast_concat]
    refine ⟨A.length, B.length + 1, some sT, ?_, ?_⟩
    · rcases hsT with h | h
      · exact Or.inl (by rw [h])
      · exact Or.inr (by rw [h])
    · rw [statusTrace, startupStates, List.map_append, hopt, heq, statesFrom_append,
        List.map_append, hmapA]
      show List.replicate A.length (some "loading")
          ++ (statusStrOf (A.foldl applyUpdate (construct inputs))
            :: (statesFrom (applyUpdate (A.foldl applyUpdate (construct inputs)) t)
              B).map statusStrOf)
          ++ (if startupOk inputs store then [some "loaded"] else []) = _
      rw [hstatus_stA, statesFrom_status B _ hB, hstatus_stT, replicate_append_cons,
        List.append_assoc]

theorem shape_conclusions (T : List (Option String)) (p q : Nat) (s : Option String)
    (ok : Bool) (hs : s = some "loading" ∨ s = some "loaded")
    (hT : T = List.replicate (p + 1) (some "loading") ++ List.replicate q s
      ++ (if ok = true then [some "loaded"] else [])) :
    T.head? = some (some "loading")
    ∧ (ok = true → countLoadingToLoaded T = 1)
    ∧ countLoadingToLoaded T ≤ 1
    ∧ List.Pairwise (fun a b => (a = some "loaded" ∨ a = some "error") →
        b ≠ some "loading") T
    ∧ (∀ x ∈ T, x ≠ some "error") := by
  subst hT
  refine ⟨?_, ?_, ?_, ?_, ?_⟩
  · rw [List.replicate_succ]
    rfl
  · intro hok
    rw [if_pos hok]
    rcases hs with rfl | rfl
    · rw [← List.replicate_add, Nat.add_right_comm p 1 q]
      exact countLL_replicate_append (p + q)
    · cases q with
      | zero =>
          rw [List.replicate_zero, List.append_nil]
          exact countLL_replicate_append p
      | succ q' =>
          rw [List.append_assoc, ← List.replicate_succ' (q' + 1) (some "loaded")]
          exact countLL_L_then_D p (q' + 1)
  · by_cases hok : ok = true
    · rw [if_pos hok]
      rcases hs with rfl | rfl
      · rw [← List.replicate_add, Nat.add_right_comm p 1 q,
          countLL_replicate_append (p + q)]
      · cases q with
        | zero =>
            rw [List.replicate_zero, List.append_nil, countLL_replicate_append p]
        | succ q' =>
            rw [List.append_assoc, ← List.replicate_succ' (q' + 1) (some "loaded"),
              countLL_L_then_D p (q' + 1)]
    · rw [if_neg hok, List.append_nil]
      rcases hs with rfl | rfl
      · rw [← List.replicate_add, countLL_const]
        exact Nat.zero_le 1
      · cases q with
        | zero =>
            rw [List.replicate_zero, List.append_nil, countLL_const]
            exact Nat.zero_le 1
        | succ q' =>
            rw [countLL_L_then_D p q']
  · refine List.pairwise_append.mpr ⟨?_, ?_, ?_⟩
    · refine List.pairwise_append.mpr ⟨?_, ?_, ?_⟩
      · refine List.pairwise_replicate.mpr (Or.inr ?_)
        rintro (h | h) <;> exact absurd h (by decide)
      · refine List.pairwise_replicate.mpr (Or.inr ?_)
        rcases hs with rfl | rfl
        · rintro (h | h) <;> exact absurd h (by decide)
        · intro _
          decide
      · intro a ha b hb
        rw [List.eq_of_mem_replicate ha]
        rintro (h | h) <;> exact absurd h (by decide)
    · by_cases hok : ok = true
      · rw [if_pos hok]
        exact List.pairwise_singleton _ _
      · rw [if_neg hok]
        exact List.Pairwise.nil
    · intro a ha b hb
      by_cases hok : ok = true
      · rw [if_pos hok] at hb
        rcases List.mem_cons.mp hb with rfl | hb'
        · intro _
          decide
        · simp at hb'
      · rw [if_neg hok] at hb
        simp at hb
  · intro x hx
    rcases List.mem_append.mp hx with h12 | h4
    · rcases List.mem_append.mp h12 with h1 | h3
      · rw [List.eq_of_mem_replicate h1]
        intro h
        exact absurd h (by decide)
      · rw [List.eq_of_mem_replicate h3]
        rcases hs with rfl | rfl
        · intro h
          exact absurd h (by decide)
        · intro h
          exact absurd h (by decide)
    · by_cases hok : ok = true
      · rw [if_pos hok] at h4
        rcases List.mem_cons.mp h4 with rfl | h5
        · intro h
          exact absurd h (by decide)
        · simp at h5
      · rw [if_neg hok] at h4
        simp at h4

/-- C5: immediately after construction the status is Loading (with
`loading = true`, `loaded = false`); when every configured path finishes
loading (`startupOk`), the final status is Loaded (`loading = false`,
`loaded = true`); the Loading-to-Loaded transition of the status history
occurs exactly once on a completed startup and never more than once
otherwise; the status never returns to Loading after Loaded or Error is
reached; and the Error status is never produced at all.  The hypotheses
admit every self-produced store: load writes either leave the reserved
`_persist` record alone or are root shallow-merges whose `_persist` payload
is a record the engine itself persists (a root `SingleFile` engine
reloading its own store — the README quick-start from the second launch on
— satisfies them, since its staged payload embeds the live `_persist`
record, whose status is loading or loaded, and a configuration has at most
one root path). -/
theorem status_lifecycle (inputs : Inputs) (store : Store)
    (hb : ∀ u ∈ startupUpdates inputs store, benignUpdate u = true)
    (h1 : ((startupUpdates inputs store).filter touchesPersist).length ≤ 1) :
    (statusTrace inputs store).head? = some (some "loading")
    ∧ statusStrOf (construct inputs) = some "loading"
    ∧ loadingFlagsOf (construct inputs) = some (true, false)
    ∧ (startupOk inputs store = true →
        statusStrOf (startupState inputs store) = some "loaded"
        ∧ loadingFlagsOf (startupState inputs store) = some (false, true))
    ∧ (startupOk inputs store = true →
        countLoadingToLoaded (statusTrace inputs store) = 1)
    ∧ countLoadingToLoaded (statusTrace inputs store) ≤ 1
    ∧ List.Pairwise (fun a b => (a = some "loaded" ∨ a = some "error") →
        b ≠ some "loading") (statusTrace inputs store)
    ∧ (∀ x ∈ statusTrace inputs store, x ≠ some "error") := by
  obtain ⟨p, q, s, hs, hT⟩ := statusTrace_shape inputs store hb h1
  have hc := shape_conclusions (statusTrace inputs store) p q s
    (startupOk inputs store) hs hT
  refine ⟨hc.1, statusStrOf_construct inputs, loadingFlagsOf_construct inputs, ?_,
    hc.2.1, hc.2.2.1, hc.2.2.2.1, hc.2.2.2.2⟩
  intro hok
  rw [startupState, hok]
  show statusStrOf (markLoaded _) = some "loaded"
    ∧ loadingFlagsOf (markLoaded _) = some (false, true)
  exact markLoaded_final_status inputs store hb

/-- Witness for C5: a root `SingleFile` engine reloading the store it wrote
on a previous run — the stored payload embeds the persisted `_persist`
record (status `"loaded"`), the load-phase merge carries it back into the
tree, and the status history still shows exactly one Loading-to-Loaded
transition. -/
theorem status_lifecycle_witness :
    statusStrOf (construct
      ⟨"app", 0, .single .SingleFile, [], [("count", Val.vint 0)]⟩) = some "loading"
    ∧ countLoadingToLoaded (statusTrace
        ⟨"app", 0, .single .SingleFile, [], [("count", Val.vint 0)]⟩
        [("app-", StoredString.json (Val.vobj [("count", Val.vint 7),
          ("_persist", Val.vobj [("version", Val.vint 0),
            ("status", Val.vstr "loaded"), ("loading", Val.vbool false),
            ("loaded", Val.vbool true), ("error", Val.vnull)])]))]) = 1 := by
  have h := status_lifecycle
    ⟨"app", 0, .single .SingleFile, [], [("count", Val.vint 0)]⟩
    [("app-", StoredString.json (Val.vobj [("count", Val.vint 7),
      ("_persist", Val.vobj [("version", Val.vint 0),
        ("status", Val.vstr "loaded"), ("loading", Val.vbool false),
        ("loaded", Val.vbool true), ("error", Val.vnull)])]))]
    (by decide) (by decide)
  exact ⟨h.2.1, h.2.2.2.2.1 rfl⟩


/-- C10: `proxyWithPersist` returns (synchronously, before the async startup
routine consumes any storage result — `construct` does not take the storage
at all) a state object whose fields are exactly the fields of
`initialState` together with a `_persist` record equal to
`{version, status: 'loading', loading: true, loaded: false, error: null}`. -/
theorem construct_initial_shape (inputs : Inputs) :
    getField (construct inputs) "_persist" =
      some (Val.vobj [("version", Val.vint inputs.version),
        ("status", Val.vstr "loading"), ("loading", Val.vbool true),
        ("loaded", Val.vbool false), ("error", Val.vnull)])
    ∧ (∀ k, k ≠ "_persist" →
        getField (construct inputs) k = getField inputs.initialState k)
    ∧ (∀ k, (getField (construct inputs) k).isSome ↔
        k = "_persist" ∨ (getField inputs.initialState k).isSome) := by
  refine ⟨getField_setField_self _ _ _,
    fun k hk => getField_setField_ne _ _ _ _ (fun he => hk he.symm), ?_⟩
  intro k
  by_cases hk : k = "_persist"
  · subst hk
    rw [construct, getField_setField_self]
    simp
  · rw [construct, getField_setField_ne _ _ _ _ (fun he => hk he.symm)]
    simp [hk]

/-- Witness for C10: the demo configuration (`count`, `photos` initial
state) yields a `_persist` record in loading state and untouched user
fields. -/
theorem construct_initial_shape_witness :
    getField (construct ⟨"app", 0, .perPath [("count", .SingleFile), ("photos", .MultiFile)],
        [], [("count", Val.vint 0), ("photos", Val.vobj [])]⟩)
      "_persist" =
      some (Val.vobj [("version", Val.vint 0), ("status", Val.vstr "loading"),
        ("loading", Val.vbool true), ("loaded", Val.vbool false), ("error", Val.vnull)])
    ∧ getField (construct ⟨"app", 0, .perPath [("count", .SingleFile), ("photos", .MultiFile)],
        [], [("count", Val.vint 0), ("photos", Val.vobj [])]⟩)
      "count" = some (Val.vint 0) := by
  have h := construct_initial_shape ⟨"app", 0,
    .perPath [("count", .SingleFile), ("photos", .MultiFile)],
    [], [("count", Val.vint 0), ("photos", Val.vobj [])]⟩
  exact ⟨h.1, (h.2.1 "count" (by decide)).trans rfl⟩

end ValtioPersist
